import Mathlib

/-!
Verification of the CAF-code expansion service (`api/gerar.py`).

The embedding models the three core functions of the module —
`parse_caf`, `ler_identificadores_unicos_ordenados`, `gerar_combos` —
and the `do_POST` request handler.  Strings are Lean `String`s
(lists of characters); spreadsheet cells are an inductive `Cell`
(`None`, `int`, `str`; exotic cell types such as floats or booleans do
not occur in the claims and are not modelled); Python exceptions are
modelled by `Option`/`Except` (`none` / `.error` = the call raises).
Character classes model the ASCII fragment of Python's semantics
(`str.strip`, `str.upper`, `re` character classes); non-ASCII
whitespace, Unicode digits, and underscore digit separators accepted
by `int()` are outside the modelled fragment.
-/

/-! ### Character primitives -/

/-- ASCII whitespace recognised by Python's `str.strip()` and by `\s`
in the `re` module: space, tab, newline, carriage return, vertical
tab, form feed. -/
def isSpaceCh (c : Char) : Bool :=
  c.toNat = 32 || c.toNat = 9 || c.toNat = 10 || c.toNat = 13 || c.toNat = 11 || c.toNat = 12

/-- The character class `[A-Z]` under `re.IGNORECASE`: an ASCII letter
of either case. -/
def isLetterIC (c : Char) : Bool :=
  (65 ≤ c.toNat && c.toNat ≤ 90) || (97 ≤ c.toNat && c.toNat ≤ 122)

/-- The character class `\d` (ASCII decimal digit). -/
def isDigitCh (c : Char) : Bool :=
  48 ≤ c.toNat && c.toNat ≤ 57

/-- Python's `str.upper()` on one ASCII character: map `a`–`z` to
`A`–`Z`, leave everything else unchanged. -/
def toUpperCh (c : Char) : Char :=
  if 97 ≤ c.toNat ∧ c.toNat ≤ 122 then Char.ofNat (c.toNat - 32) else c

/-! ### List-of-character utilities (Python string operations) -/

/-- Python `str.strip()`: remove leading and trailing whitespace. -/
def pyStripList (l : List Char) : List Char :=
  ((l.dropWhile isSpaceCh).reverse.dropWhile isSpaceCh).reverse

/-- Python `str.strip()` at `String` level. -/
def pyStripStr (s : String) : String :=
  String.mk (pyStripList s.toList)

/-- Python `str.replace(" ", "")`: remove every space character. -/
def removeSpaces (l : List Char) : List Char :=
  l.filter (fun c => !(c == ' '))

/-- The normalisation performed by `parse_caf`:
`caf.strip().upper().replace(" ", "")`. -/
def normalizeCafList (l : List Char) : List Char :=
  removeSpaces ((pyStripList l).map toUpperCh)

/-- String-level normalisation `caf.strip().upper().replace(" ", "")`. -/
def normalizeCaf (s : String) : String :=
  String.mk (normalizeCafList s.toList)

/-- Value of a list of ASCII digit characters, most significant first. -/
def digitsVal (l : List Char) : Nat :=
  l.foldl (fun acc c => acc * 10 + (c.toNat - 48)) 0

/-- Python `int(s)` on a string: strip whitespace, optional sign, then
a nonempty run of decimal digits; `none` models a raised `ValueError`.
(Underscore digit separators are not modelled.) -/
def pyIntOfString (s : String) : Option Int :=
  match pyStripList s.toList with
  | [] => none
  | c :: cs =>
    if c = '-' then
      if cs ≠ [] ∧ cs.all isDigitCh then some (-(digitsVal cs : Int)) else none
    else if c = '+' then
      if cs ≠ [] ∧ cs.all isDigitCh then some ((digitsVal cs : Nat) : Int) else none
    else
      if (c :: cs).all isDigitCh then some ((digitsVal (c :: cs) : Nat) : Int) else none

/-- Python `f"{n:02d}"`: decimal rendering zero-padded to width 2.
For `0 ≤ n < 10` this prepends one `0`; any other integer (including
negatives, whose sign counts towards the width) already has at least
two characters. -/
def format02d (n : Int) : String :=
  if 0 ≤ n ∧ n < 10 then "0" ++ toString n else toString n

/-! ### The regular expression `CAF_RE` as a deterministic matcher

`CAF_RE` is
`^\s*(UF:[A-Z]{2})(MES:\d{2})(ANO:\d{4})\.(COD1:\d{2})\.(COD2:\d{2})(IDENT:\*\*|XX|\d{2})(TAIL:\d{5})CAF\s*$`
compiled with `re.IGNORECASE` (and `re.VERBOSE`, which only affects the
pattern's own layout).  All alternations are between disjoint character
classes and all stars are over character classes disjoint from what
follows, so backtracking never changes the outcome and the regex is
equivalent to the deterministic matcher below. -/

/-- The seven capture groups of `CAF_RE`. -/
structure CafGroups where
  uf : List Char
  mes : List Char
  ano : List Char
  cod1 : List Char
  cod2 : List Char
  ident : List Char
  tail : List Char
deriving DecidableEq, Repr

/-- Match exactly `n` characters satisfying `p` (the regex `p{n}`),
returning the consumed characters and the rest. -/
def takeCount (p : Char → Bool) : Nat → List Char → Option (List Char × List Char)
  | 0, cs => some ([], cs)
  | _ + 1, [] => none
  | n + 1, c :: cs =>
    if p c then (takeCount p n cs).map (fun pr => (c :: pr.1, pr.2)) else none

/-- Match one literal character. -/
def expectChar (ch : Char) : List Char → Option (List Char)
  | [] => none
  | c :: cs => if c = ch then some cs else none

/-- Match a literal word case-insensitively (the pattern is given in
upper case); returns the characters actually consumed and the rest. -/
def expectLitIC : List Char → List Char → Option (List Char × List Char)
  | [], cs => some ([], cs)
  | _ :: _, [] => none
  | p :: ps, c :: cs =>
    if toUpperCh c = p then (expectLitIC ps cs).map (fun pr => (c :: pr.1, pr.2)) else none

/-- The `IDENT` group `(\*\*|XX|\d{2})` under `re.IGNORECASE`: two
stars, or two letters `x`/`X`, or two digits. -/
def matchIdentAlt : List Char → Option (List Char × List Char)
  | c1 :: c2 :: rest =>
    if c1 = '*' ∧ c2 = '*' then some ([c1, c2], rest)
    else if toUpperCh c1 = 'X' ∧ toUpperCh c2 = 'X' then some ([c1, c2], rest)
    else if isDigitCh c1 ∧ isDigitCh c2 then some ([c1, c2], rest)
    else none
  | _ => none

/-- `CAF_RE.match` on a list of characters: `some` of the capture
groups on success, `none` on failure. -/
def matchCAF (cs : List Char) : Option CafGroups :=
  (takeCount isLetterIC 2 (cs.dropWhile isSpaceCh)).bind (fun uf1 =>
  (takeCount isDigitCh 2 uf1.2).bind (fun mes1 =>
  (takeCount isDigitCh 4 mes1.2).bind (fun ano1 =>
  (expectChar '.' ano1.2).bind (fun r4 =>
  (takeCount isDigitCh 2 r4).bind (fun cod11 =>
  (expectChar '.' cod11.2).bind (fun r6 =>
  (takeCount isDigitCh 2 r6).bind (fun cod21 =>
  (matchIdentAlt cod21.2).bind (fun id1 =>
  (takeCount isDigitCh 5 id1.2).bind (fun tl1 =>
  (expectLitIC ['C', 'A', 'F'] tl1.2).bind (fun cf1 =>
  if cf1.2.dropWhile isSpaceCh = [] then
    some ⟨uf1.1, mes1.1, ano1.1, cod11.1, cod21.1, id1.1, tl1.1⟩
  else none))))))))))

/-! ### `parse_caf` -/

/-- The record returned by `parse_caf`: the regex group dictionary
plus the normalised input under key `CAF_NORMALIZADO`. -/
structure ParsedCode where
  UF : String
  MES : String
  ANO : String
  COD1 : String
  COD2 : String
  IDENT : String
  TAIL : String
  CAF_NORMALIZADO : String
deriving DecidableEq, Repr

/-- `parse_caf(caf)`: `None` for the empty string (`if not caf`),
otherwise normalise and match against `CAF_RE`; on failure `None`,
on success the group dictionary plus the normalised string. -/
def parse_caf (caf : String) : Option ParsedCode :=
  if caf = "" then none
  else
    let caf_n := normalizeCaf caf
    match matchCAF caf_n.toList with
    | none => none
    | some g =>
      some ⟨String.mk g.uf, String.mk g.mes, String.mk g.ano, String.mk g.cod1,
            String.mk g.cod2, String.mk g.ident, String.mk g.tail, caf_n⟩

/-! ### The reference dataset and `ler_identificadores_unicos_ordenados` -/

/-- An `openpyxl` cell value as used by the module: `None`, an integer
cell, or a text cell. -/
inductive Cell where
  | none
  | int (n : Int)
  | str (s : String)
deriving DecidableEq, Repr

/-- A worksheet: the rows produced by `ws.iter_rows(values_only=True)`,
header row included. -/
abbrev Sheet := List (List Cell)

/-- Python `int(cell)`: an integer cell is itself, a text cell is
parsed, `int(None)` raises `TypeError` (`none`). -/
def cellToInt : Cell → Option Int
  | .none => Option.none
  | .int n => some n
  | .str s => pyIntOfString s

/-- Python `str(cell)`. -/
def pyStrOfCell : Cell → String
  | .none => "None"
  | .int n => toString n
  | .str s => s

/-- `mes_ok`: `f"{int(mes_val):02d}"`, with `None` (for a `None` cell
or any exception) modelled as `none`. -/
def mes_ok_of (c : Cell) : Option String :=
  (cellToInt c).map format02d

/-- `ano_ok`: `str(int(ano_val))`, with `None` modelled as `none`. -/
def ano_ok_of (c : Cell) : Option String :=
  (cellToInt c).map (fun n => toString n)

/-- `int(str(ident_val).strip())`; `none` models a raised exception. -/
def identCoerce (c : Cell) : Option Int :=
  pyIntOfString (pyStripStr (pyStrOfCell c))

/-- `row[5] if len(row) >= 6 else None`. -/
def identCellOf (row : List Cell) : Cell :=
  if 6 ≤ row.length then row.getD 5 Cell.none else Cell.none

/-- One iteration of the row loop.  `none` models the `IndexError`
raised by `row[1]` / `row[2]` on a row with fewer than 3 cells
(that access is outside the `try` blocks).  `some none`: the row
contributes nothing (month/year mismatch or failed coercion, or
identifier outside `[0, 99]`).  `some (some cod)`: the row offers the
zero-padded identifier `cod`. -/
def processRow (mes ano : String) (row : List Cell) : Option (Option String) :=
  match row[1]?, row[2]? with
  | some mesVal, some anoVal =>
    if mes_ok_of mesVal = some mes ∧ ano_ok_of anoVal = some ano then
      match identCoerce (identCellOf row) with
      | Option.none => some Option.none
      | some n => if 0 ≤ n ∧ n ≤ 99 then some (some (format02d n)) else some Option.none
    else some Option.none
  | _, _ => none

/-- The row loop with its `vistos` set (modelled as the list of seen
codes) and `ids` accumulator. -/
def scanRows (mes ano : String) : List (List Cell) → List String → List String → Option (List String)
  | [], _, ids => some ids
  | row :: rest, vistos, ids =>
    match processRow mes ano row with
    | Option.none => none
    | some Option.none => scanRows mes ano rest vistos ids
    | some (some cod) =>
      if cod ∈ vistos then scanRows mes ano rest vistos ids
      else scanRows mes ano rest (cod :: vistos) (ids ++ [cod])

/-- The two ways `ler_identificadores_unicos_ordenados` can raise:
`FileNotFoundError` when the spreadsheet is absent, and the
`IndexError` escaping the row loop. -/
inductive LerErr where
  | fileNotFound
  | indexError
deriving DecidableEq, Repr

/-- The sort key `lambda x: int(x)`.  Every element sorted by the
module is an `f"{n:02d}"` rendering, on which `int` always succeeds;
the default is irrelevant. -/
def sortKey (s : String) : Int :=
  (pyIntOfString s).getD 0

instance decSortKeyLe : DecidableRel (fun a b : String => sortKey a ≤ sortKey b) :=
  fun a b => Int.decLe (sortKey a) (sortKey b)

instance : IsTotal String (fun a b => sortKey a ≤ sortKey b) :=
  ⟨fun a b => Int.le_total (sortKey a) (sortKey b)⟩

instance : IsTrans String (fun a b => sortKey a ≤ sortKey b) :=
  ⟨fun _ _ _ hab hbc => le_trans hab hbc⟩

/-- `ler_identificadores_unicos_ordenados(mes, ano)`.  `dataset` is
`none` when the spreadsheet file is missing (`PLANILHA.exists()`
fails).  The scan skips the header row (`min_row=2`), then the result
list is sorted with Python's stable `list.sort(key=int)`; a stable
sort is modelled by insertion sort. -/
def ler_identificadores_unicos_ordenados (dataset : Option Sheet) (mes ano : String) :
    Except LerErr (List String) :=
  match dataset with
  | Option.none => .error .fileNotFound
  | some sheet =>
    match scanRows mes ano (sheet.drop 1) [] [] with
    | Option.none => .error .indexError
    | some ids => .ok (List.insertionSort (fun a b => sortKey a ≤ sortKey b) ids)

/-! ### `gerar_combos` -/

/-- `re.fullmatch(r"\d{2}", ident)`. -/
def isTwoDigits (s : String) : Bool :=
  s.toList.length = 2 && s.toList.all isDigitCh

/-- `gerar_combos(parsed, ids_lista)`. -/
def gerar_combos (parsed : ParsedCode) (ids_lista : List String) : List String :=
  let prefixo := parsed.UF ++ parsed.MES ++ parsed.ANO ++ "." ++ parsed.COD1 ++ "." ++ parsed.COD2
  let tl := parsed.TAIL ++ "CAF"
  if isTwoDigits parsed.IDENT then
    if parsed.IDENT ∈ ids_lista then [prefixo ++ parsed.IDENT ++ tl] else []
  else
    ids_lista.map (fun cod => prefixo ++ cod ++ tl)

/-! ### The request handler `do_POST` -/

/-- What `data.get("caf")` yields once the JSON body is decoded: the
key is absent (also covers the empty-object body), its value is JSON
`null`, or it is a string. -/
inductive CafField where
  | absent
  | null
  | strVal (s : String)
deriving DecidableEq, Repr

/-- `(data.get("caf") or "")`: `None` (absent or null) is falsy, as is
the empty string, so both collapse to `""`. -/
def cafFieldStr : CafField → String
  | .strVal s => s
  | _ => ""

/-- A JSON response body: either `{"combos": [...]}` or
`{"erro": msg}`. -/
inductive RespBody where
  | combos (l : List String)
  | erro (msg : String)
deriving DecidableEq, Repr

/-- An HTTP response as produced by `_send_json`. -/
structure HttpResp where
  status : Nat
  body : RespBody
deriving DecidableEq, Repr

/-- The `do_POST` handler from the point where the JSON body has been
decoded.  `planilha` is the configured dataset path (`PLANILHA`);
`dataset` is `none` when the file is missing.  An `IndexError`
escaping the row loop is caught by the generic `except Exception`
handler (message `"Erro interno: ..."`). -/
def do_POST (planilha : String) (dataset : Option Sheet) (caf : CafField) : HttpResp :=
  let caf_in := pyStripStr (cafFieldStr caf)
  match parse_caf caf_in with
  | Option.none => ⟨400, .erro "Formato inválido. Ex.: BA032025.01.00**39367CAF"⟩
  | some parsed =>
    match ler_identificadores_unicos_ordenados dataset parsed.MES parsed.ANO with
    | .error .fileNotFound => ⟨500, .erro ("Planilha não encontrada: " ++ planilha)⟩
    | .error .indexError => ⟨500, .erro "Erro interno: tuple index out of range"⟩
    | .ok ids =>
      if ids = [] then
        ⟨404, .erro ("Nenhum identificador encontrado para " ++ parsed.MES ++ "/" ++ parsed.ANO ++ ".")⟩
      else
        let combos := gerar_combos parsed ids
        if combos = [] then
          ⟨404, .erro "IDENT já numérico e não presente no gabarito para este mês/ano."⟩
        else ⟨200, .combos combos⟩

/-! ### Predicates used in the claim statements -/

/-- A data row offers the identifier string `s`: its month and year
cells coerce to the requested values and its identifier cell coerces
to an integer in `[0, 99]` whose zero-padded rendering is `s`. -/
def rowYields (mes ano : String) (row : List Cell) (s : String) : Prop :=
  ∃ mv av n, row[1]? = some mv ∧ row[2]? = some av ∧
    mes_ok_of mv = some mes ∧ ano_ok_of av = some ano ∧
    identCoerce (identCellOf row) = some n ∧ 0 ≤ n ∧ n ≤ 99 ∧ s = format02d n

/-- A malformed data row in the sense of the spec: month, year or
identifier coercion fails, the identifier is out of `[0, 99]`, or the
row has fewer cells than the expected six. -/
def rowMalformed (row : List Cell) : Prop :=
  (∃ mv, row[1]? = some mv ∧ mes_ok_of mv = Option.none) ∨
  (∃ av, row[2]? = some av ∧ ano_ok_of av = Option.none) ∨
  identCoerce (identCellOf row) = Option.none ∨
  (∃ n, identCoerce (identCellOf row) = some n ∧ (n < 0 ∨ 99 < n)) ∨
  row.length < 6

/-- A case-change/space-insertion variant: `isVariantCore s v` holds
when `v` is obtained from `s` by changing the case of letters and
inserting space characters. -/
def isVariantCore : List Char → List Char → Bool
  | [], [] => true
  | [], c :: v => c = ' ' && isVariantCore [] v
  | _ :: _, [] => false
  | c :: s, c' :: v =>
    (toUpperCh c' = toUpperCh c && isVariantCore s v) || (c' = ' ' && isVariantCore (c :: s) v)

/-- The possible shapes of the `IDENT` capture group: two stars, two
letters `x`/`X`, or two digits. -/
def identShape (l : List Char) : Prop :=
  l = ['*', '*'] ∨ (∃ a b, l = [a, b] ∧ toUpperCh a = 'X' ∧ toUpperCh b = 'X') ∨
  (l.length = 2 ∧ ∀ c ∈ l, isDigitCh c = true)

/-- The dataset of the spec's worked example: rows for month 03, year
2025 with identifier cells 5, 12, 5, "bad", 130, 7. -/
def exampleSheet : Sheet :=
  [ [Cell.str "uf", Cell.str "mes", Cell.str "ano", Cell.none, Cell.none, Cell.str "ident"],
    [Cell.none, Cell.int 3, Cell.int 2025, Cell.none, Cell.none, Cell.int 5],
    [Cell.none, Cell.int 3, Cell.int 2025, Cell.none, Cell.none, Cell.int 12],
    [Cell.none, Cell.int 3, Cell.int 2025, Cell.none, Cell.none, Cell.int 5],
    [Cell.none, Cell.int 3, Cell.int 2025, Cell.none, Cell.none, Cell.str "bad"],
    [Cell.none, Cell.int 3, Cell.int 2025, Cell.none, Cell.none, Cell.int 130],
    [Cell.none, Cell.int 3, Cell.int 2025, Cell.none, Cell.none, Cell.int 7] ]

/-! ## Helper lemmas: characters -/

theorem toNatOfNatLt {n : Nat} (h : n < 55296) : (Char.ofNat n).toNat = n := by
  rw [Char.ofNat, dif_pos (Or.inl h)]
  rfl

theorem char_eq_iff_toNat {c d : Char} : c = d ↔ c.toNat = d.toNat :=
  ⟨fun h => by rw [h], fun h => Char.ext (UInt32.toNat.inj h)⟩

theorem toNat_toUpperCh (c : Char) :
    (toUpperCh c).toNat = if 97 ≤ c.toNat ∧ c.toNat ≤ 122 then c.toNat - 32 else c.toNat := by
  by_cases h : 97 ≤ c.toNat ∧ c.toNat ≤ 122
  · rw [toUpperCh, if_pos h, if_pos h]
    exact toNatOfNatLt (by omega)
  · rw [toUpperCh, if_neg h, if_neg h]

theorem isSpaceCh_toUpperCh (c : Char) : isSpaceCh (toUpperCh c) = isSpaceCh c := by
  rw [Bool.eq_iff_iff]
  simp only [isSpaceCh, toNat_toUpperCh, Bool.or_eq_true, decide_eq_true_eq]
  split <;> omega

theorem toUpperCh_idem (c : Char) : toUpperCh (toUpperCh c) = toUpperCh c := by
  rw [char_eq_iff_toNat]
  by_cases hc : 97 ≤ c.toNat ∧ c.toNat ≤ 122
  · have h1 : (toUpperCh c).toNat = c.toNat - 32 := by rw [toNat_toUpperCh, if_pos hc]
    rw [toNat_toUpperCh, h1, if_neg (by omega)]
  · have h1 : (toUpperCh c).toNat = c.toNat := by rw [toNat_toUpperCh, if_neg hc]
    rw [toNat_toUpperCh, h1, if_neg hc]

theorem toUpperCh_of_digit {c : Char} (h : isDigitCh c = true) : toUpperCh c = c := by
  simp only [isDigitCh, Bool.and_eq_true, decide_eq_true_eq] at h
  rw [toUpperCh, if_neg (by omega)]

theorem isSpaceCh_false_of_digit {c : Char} (h : isDigitCh c = true) : isSpaceCh c = false := by
  simp only [isDigitCh, Bool.and_eq_true, decide_eq_true_eq] at h
  simp only [isSpaceCh, Bool.or_eq_false_iff, decide_eq_false_iff_not]
  omega

theorem isSpaceCh_false_of_letter {c : Char} (h : isLetterIC c = true) : isSpaceCh c = false := by
  simp only [isLetterIC, Bool.or_eq_true, Bool.and_eq_true, decide_eq_true_eq] at h
  simp only [isSpaceCh, Bool.or_eq_false_iff, decide_eq_false_iff_not]
  omega

theorem ne_space_of_not_spaceCh {c : Char} (h : isSpaceCh c = false) : c ≠ ' ' := by
  intro hc
  subst hc
  simp [isSpaceCh] at h

theorem toUpperCh_digit_ne_X {c : Char} (h : isDigitCh c = true) : toUpperCh c ≠ 'X' := by
  rw [toUpperCh_of_digit h]
  simp only [isDigitCh, Bool.and_eq_true, decide_eq_true_eq] at h
  rw [Ne, char_eq_iff_toNat, show ('X' : Char).toNat = 88 from rfl]
  omega

theorem digit_ne_star {c : Char} (h : isDigitCh c = true) : c ≠ '*' := by
  simp only [isDigitCh, Bool.and_eq_true, decide_eq_true_eq] at h
  rw [Ne, char_eq_iff_toNat, show ('*' : Char).toNat = 42 from rfl]
  omega

/-! ## Helper lemmas: lists, strip, normalisation -/

theorem mem_takeWhile_sat {p : α → Bool} : ∀ {l : List α} {a : α}, a ∈ l.takeWhile p → p a = true := by
  intro l
  induction l with
  | nil => intro a h; simp at h
  | cons x xs ih =>
    intro a h
    rw [List.takeWhile_cons] at h
    by_cases hx : p x = true
    · rw [if_pos hx] at h
      rcases List.mem_cons.mp h with h | h
      · subst h; exact hx
      · exact ih h
    · rw [if_neg hx] at h
      simp at h

theorem all_sat_of_dropWhile_eq_nil {p : α → Bool} :
    ∀ {l : List α}, l.dropWhile p = [] → ∀ a ∈ l, p a = true := by
  intro l
  induction l with
  | nil => intro _ a h; simp at h
  | cons x xs ih =>
    intro h a ha
    rw [List.dropWhile_cons] at h
    by_cases hx : p x = true
    · rw [if_pos hx] at h
      rcases List.mem_cons.mp ha with rfl | ha
      · exact hx
      · exact ih h a ha
    · rw [if_neg hx] at h
      simp at h

theorem dropWhile_eq_nil_of_all {p : α → Bool} {l : List α} (h : ∀ a ∈ l, p a = true) :
    l.dropWhile p = [] := by
  have h2 : ((l ++ ([] : List α)).dropWhile p) = ([] : List α).dropWhile p :=
    List.dropWhile_append_of_pos h
  simpa using h2

theorem dropWhile_eq_self_of_all_not {p : α → Bool} {l : List α} (h : ∀ a ∈ l, p a = false) :
    l.dropWhile p = l := by
  cases l with
  | nil => rfl
  | cons x xs =>
    rw [List.dropWhile_cons_of_neg]
    simp [h x (List.mem_cons_self x xs)]

theorem pyStripList_eq_self {l : List Char} (h : ∀ c ∈ l, isSpaceCh c = false) :
    pyStripList l = l := by
  unfold pyStripList
  rw [dropWhile_eq_self_of_all_not h, dropWhile_eq_self_of_all_not (by
    intro c hc
    exact h c (List.mem_reverse.mp hc)), List.reverse_reverse]

theorem pyStripList_sublist_mem {l : List Char} {c : Char} (h : c ∈ pyStripList l) : c ∈ l := by
  unfold pyStripList at h
  rw [List.mem_reverse] at h
  have h1 := List.dropWhile_sublist (l := (l.dropWhile isSpaceCh).reverse) (p := isSpaceCh)
  have h2 := h1.mem h
  rw [List.mem_reverse] at h2
  exact (List.dropWhile_sublist (l := l) (p := isSpaceCh)).mem h2

theorem head?_dropWhile_false {p : α → Bool} {l : List α} {c : α}
    (h : (l.dropWhile p).head? = some c) : p c = false := by
  have h1 := List.head?_dropWhile_not p l
  rw [h] at h1
  exact h1

theorem getLast?_dropWhile_of_ne_nil {p : α → Bool} {l : List α} (h : l.dropWhile p ≠ []) :
    (l.dropWhile p).getLast? = l.getLast? := by
  conv_rhs => rw [← List.takeWhile_append_dropWhile (p := p) (l := l)]
  rw [List.getLast?_append]
  cases hY : (l.dropWhile p).getLast? with
  | none => exact absurd (List.getLast?_eq_none_iff.mp hY) h
  | some y => rfl

theorem pyStrip_head_not_space {l : List Char} {c : Char}
    (h : (pyStripList l).head? = some c) : isSpaceCh c = false := by
  unfold pyStripList at h
  rw [List.head?_reverse] at h
  have hne : (l.dropWhile isSpaceCh).reverse.dropWhile isSpaceCh ≠ [] := by
    intro hn
    rw [hn] at h
    simp at h
  rw [getLast?_dropWhile_of_ne_nil hne, List.getLast?_reverse] at h
  exact head?_dropWhile_false h

theorem pyStrip_getLast_not_space {l : List Char} {c : Char}
    (h : (pyStripList l).getLast? = some c) : isSpaceCh c = false := by
  unfold pyStripList at h
  rw [List.getLast?_reverse] at h
  exact head?_dropWhile_false h


theorem filter_nonspace_head_not_space {M : List Char}
    (hM : ∀ d, M.head? = some d → isSpaceCh d = false) {c : Char}
    (h : (M.filter (fun c => !(c == ' '))).head? = some c) : isSpaceCh c = false := by
  cases M with
  | nil => simp at h
  | cons d t =>
    have hd := hM d rfl
    have hkeep : (!(d == ' ')) = true := by
      simp only [Bool.not_eq_true', beq_eq_false_iff_ne]
      exact ne_space_of_not_spaceCh hd
    rw [show List.filter (fun c => !(c == ' ')) (d :: t)
          = d :: List.filter (fun c => !(c == ' ')) t by
        simp only [List.filter_cons, hkeep, if_true]] at h
    simp only [List.head?_cons, Option.some.injEq] at h
    rw [← h]
    exact hd

theorem normalize_head_not_space {l : List Char} {c : Char}
    (h : (normalizeCafList l).head? = some c) : isSpaceCh c = false := by
  unfold normalizeCafList removeSpaces at h
  refine filter_nonspace_head_not_space ?_ h
  intro d hd
  rw [List.head?_map] at hd
  cases hs : (pyStripList l).head? with
  | none => rw [hs] at hd; simp at hd
  | some e =>
    rw [hs] at hd
    simp only [Option.map_some', Option.some.injEq] at hd
    rw [← hd, isSpaceCh_toUpperCh]
    exact pyStrip_head_not_space hs

theorem normalize_getLast_not_space {l : List Char} {c : Char}
    (h : (normalizeCafList l).getLast? = some c) : isSpaceCh c = false := by
  unfold normalizeCafList removeSpaces at h
  rw [← List.head?_reverse, ← List.filter_reverse] at h
  refine filter_nonspace_head_not_space ?_ h
  intro d hd
  rw [List.head?_reverse, List.getLast?_map] at hd
  cases hs : (pyStripList l).getLast? with
  | none => rw [hs] at hd; simp at hd
  | some e =>
    rw [hs] at hd
    simp only [Option.map_some', Option.some.injEq] at hd
    rw [← hd, isSpaceCh_toUpperCh]
    exact pyStrip_getLast_not_space hs

theorem normalize_mem_toUpperCh_fixed {l : List Char} {c : Char}
    (h : c ∈ normalizeCafList l) : toUpperCh c = c := by
  unfold normalizeCafList removeSpaces at h
  have h1 := (List.mem_filter.mp h).1
  rcases List.mem_map.mp h1 with ⟨d, _, hd⟩
  rw [← hd]
  exact toUpperCh_idem d

theorem normalize_mem_not_space_char {l : List Char} {c : Char}
    (h : c ∈ normalizeCafList l) : c ≠ ' ' := by
  unfold normalizeCafList removeSpaces at h
  have h2 := (List.mem_filter.mp h).2
  simp only [Bool.not_eq_true', beq_eq_false_iff_ne] at h2
  exact h2

/-! ## Helper lemmas: matcher soundness -/

theorem takeCount_sound {p : Char → Bool} :
    ∀ {n : Nat} {cs xs rest : List Char}, takeCount p n cs = some (xs, rest) →
      cs = xs ++ rest ∧ xs.length = n ∧ ∀ c ∈ xs, p c = true := by
  intro n
  induction n with
  | zero =>
    intro cs xs rest h
    simp only [takeCount, Option.some.injEq, Prod.mk.injEq] at h
    obtain ⟨h1, h2⟩ := h
    subst h1
    subst h2
    refine ⟨rfl, rfl, ?_⟩
    intro c hc
    simp at hc
  | succ n ih =>
    intro cs xs rest h
    cases cs with
    | nil => simp [takeCount] at h
    | cons c cs' =>
      simp only [takeCount] at h
      by_cases hp : p c = true
      · rw [if_pos hp] at h
        cases htc : takeCount p n cs' with
        | none => rw [htc] at h; simp at h
        | some pr =>
          rw [htc] at h
          simp only [Option.map_some', Option.some.injEq] at h
          rw [Prod.ext_iff] at h
          obtain ⟨h1, h2⟩ := h
          simp only at h1 h2
          subst h1
          subst h2
          obtain ⟨e1, e2, e3⟩ := ih htc
          refine ⟨by rw [e1, List.cons_append], by simp [e2], ?_⟩
          intro c' hc'
          rcases List.mem_cons.mp hc' with rfl | hmem
          · exact hp
          · exact e3 c' hmem
      · rw [if_neg hp] at h
        simp at h

theorem expectChar_sound {ch : Char} {cs rest : List Char} (h : expectChar ch cs = some rest) :
    cs = ch :: rest := by
  cases cs with
  | nil => simp [expectChar] at h
  | cons c cs' =>
    simp only [expectChar] at h
    by_cases hc : c = ch
    · rw [if_pos hc] at h
      injection h with h1
      rw [hc, h1]
    · rw [if_neg hc] at h
      simp at h

theorem expectLitIC_sound {pat : List Char} :
    ∀ {cs m rest : List Char}, expectLitIC pat cs = some (m, rest) →
      cs = m ++ rest ∧ m.map toUpperCh = pat := by
  induction pat with
  | nil =>
    intro cs m rest h
    simp only [expectLitIC, Option.some.injEq, Prod.mk.injEq] at h
    obtain ⟨h1, h2⟩ := h
    subst h1
    subst h2
    exact ⟨rfl, rfl⟩
  | cons p ps ih =>
    intro cs m rest h
    cases cs with
    | nil => simp [expectLitIC] at h
    | cons c cs' =>
      simp only [expectLitIC] at h
      by_cases hc : toUpperCh c = p
      · rw [if_pos hc] at h
        cases hel : expectLitIC ps cs' with
        | none => rw [hel] at h; simp at h
        | some pr =>
          rw [hel] at h
          simp only [Option.map_some', Option.some.injEq] at h
          rw [Prod.ext_iff] at h
          obtain ⟨h1, h2⟩ := h
          simp only at h1 h2
          subst h1
          subst h2
          obtain ⟨e1, e2⟩ := ih hel
          exact ⟨by rw [e1, List.cons_append], by simp [List.map_cons, hc, e2]⟩
      · rw [if_neg hc] at h
        simp at h

theorem matchIdentAlt_sound {cs idv rest : List Char} (h : matchIdentAlt cs = some (idv, rest)) :
    cs = idv ++ rest ∧ identShape idv := by
  match cs with
  | [] => simp [matchIdentAlt] at h
  | [c] => simp [matchIdentAlt] at h
  | c1 :: c2 :: cs' =>
    simp only [matchIdentAlt] at h
    by_cases h1 : c1 = '*' ∧ c2 = '*'
    · rw [if_pos h1] at h
      simp only [Option.some.injEq, Prod.mk.injEq] at h
      obtain ⟨hl, hr⟩ := h
      subst hl
      subst hr
      exact ⟨rfl, Or.inl (by rw [h1.1, h1.2])⟩
    · rw [if_neg h1] at h
      by_cases h2 : toUpperCh c1 = 'X' ∧ toUpperCh c2 = 'X'
      · rw [if_pos h2] at h
        simp only [Option.some.injEq, Prod.mk.injEq] at h
        obtain ⟨hl, hr⟩ := h
        subst hl
        subst hr
        exact ⟨rfl, Or.inr (Or.inl ⟨c1, c2, rfl, h2.1, h2.2⟩)⟩
      · rw [if_neg h2] at h
        by_cases h3 : isDigitCh c1 = true ∧ isDigitCh c2 = true
        · rw [if_pos h3] at h
          simp only [Option.some.injEq, Prod.mk.injEq] at h
          obtain ⟨hl, hr⟩ := h
          subst hl
          subst hr
          refine ⟨rfl, Or.inr (Or.inr ⟨rfl, ?_⟩)⟩
          intro c hc
          rcases List.mem_cons.mp hc with rfl | hc
          · exact h3.1
          · rcases List.mem_cons.mp hc with rfl | hc
            · exact h3.2
            · simp at hc
        · rw [if_neg h3] at h
          simp at h

theorem matchCAF_sound {cs : List Char} {g : CafGroups} (h : matchCAF cs = some g) :
    ∃ ws1 cafL ws2,
      cs = ws1 ++ g.uf ++ g.mes ++ g.ano ++ ['.'] ++ g.cod1 ++ ['.'] ++ g.cod2 ++ g.ident
        ++ g.tail ++ cafL ++ ws2 ∧
      (∀ c ∈ ws1, isSpaceCh c = true) ∧ (∀ c ∈ ws2, isSpaceCh c = true) ∧
      g.uf.length = 2 ∧ (∀ c ∈ g.uf, isLetterIC c = true) ∧
      g.mes.length = 2 ∧ (∀ c ∈ g.mes, isDigitCh c = true) ∧
      g.ano.length = 4 ∧ (∀ c ∈ g.ano, isDigitCh c = true) ∧
      g.cod1.length = 2 ∧ (∀ c ∈ g.cod1, isDigitCh c = true) ∧
      g.cod2.length = 2 ∧ (∀ c ∈ g.cod2, isDigitCh c = true) ∧
      identShape g.ident ∧
      g.tail.length = 5 ∧ (∀ c ∈ g.tail, isDigitCh c = true) ∧
      cafL.map toUpperCh = ['C', 'A', 'F'] := by
  unfold matchCAF at h
  rw [Option.bind_eq_some] at h
  obtain ⟨⟨ufL, r1⟩, huf, h⟩ := h
  rw [Option.bind_eq_some] at h
  obtain ⟨⟨mesL, r2⟩, hmes, h⟩ := h
  rw [Option.bind_eq_some] at h
  obtain ⟨⟨anoL, r3⟩, hano, h⟩ := h
  rw [Option.bind_eq_some] at h
  obtain ⟨r4, hdot1, h⟩ := h
  rw [Option.bind_eq_some] at h
  obtain ⟨⟨c1L, r5⟩, hcod1, h⟩ := h
  rw [Option.bind_eq_some] at h
  obtain ⟨r6, hdot2, h⟩ := h
  rw [Option.bind_eq_some] at h
  obtain ⟨⟨c2L, r7⟩, hcod2, h⟩ := h
  rw [Option.bind_eq_some] at h
  obtain ⟨⟨idL, r8⟩, hid, h⟩ := h
  rw [Option.bind_eq_some] at h
  obtain ⟨⟨tlL, r9⟩, htl, h⟩ := h
  rw [Option.bind_eq_some] at h
  obtain ⟨⟨cfL, r10⟩, hcf, h⟩ := h
  dsimp only at hmes hano hdot1 hdot2 hcod2 hid htl hcf h
  split at h
  case isFalse => simp at h
  case isTrue hws2 =>
    injection h with h'
    subst h'
    obtain ⟨euf, lenuf, aluf⟩ := takeCount_sound huf
    obtain ⟨emes, lenmes, almes⟩ := takeCount_sound hmes
    obtain ⟨eano, lenano, alano⟩ := takeCount_sound hano
    have edot1 := expectChar_sound hdot1
    obtain ⟨ecod1, lencod1, alcod1⟩ := takeCount_sound hcod1
    have edot2 := expectChar_sound hdot2
    obtain ⟨ecod2, lencod2, alcod2⟩ := takeCount_sound hcod2
    obtain ⟨eid, hshape⟩ := matchIdentAlt_sound hid
    obtain ⟨etl, lentl, altl⟩ := takeCount_sound htl
    obtain ⟨ecf, ecfup⟩ := expectLitIC_sound hcf
    refine ⟨cs.takeWhile isSpaceCh, cfL, r10, ?_, ?_, ?_, lenuf, aluf, lenmes, almes,
      lenano, alano, lencod1, alcod1, lencod2, alcod2, hshape, lentl, altl, ecfup⟩
    · conv_lhs => rw [← List.takeWhile_append_dropWhile isSpaceCh cs]
      rw [euf, emes, eano, edot1, ecod1, edot2, ecod2, eid, etl, ecf]
      simp [List.append_assoc]
    · intro c hc
      exact mem_takeWhile_sat hc
    · intro c hc
      exact all_sat_of_dropWhile_eq_nil hws2 c hc

theorem mkAppend (a b : List Char) : String.mk a ++ String.mk b = String.mk (a ++ b) := rfl

theorem parse_caf_eq_some {s : String} {p : ParsedCode} (h : parse_caf s = some p) :
    ∃ g, matchCAF (normalizeCaf s).toList = some g ∧
      p = ⟨String.mk g.uf, String.mk g.mes, String.mk g.ano, String.mk g.cod1,
           String.mk g.cod2, String.mk g.ident, String.mk g.tail, normalizeCaf s⟩ ∧
      s ≠ "" := by
  by_cases hs : s = ""
  · rw [parse_caf, if_pos hs] at h
    simp at h
  · simp only [parse_caf, if_neg hs] at h
    cases hm : matchCAF (normalizeCaf s).toList with
    | none =>
      simp only [hm] at h
      exact Option.noConfusion h
    | some g =>
      simp only [hm, Option.some.injEq] at h
      exact ⟨g, rfl, h.symm, hs⟩

theorem matchCAF_norm_decomp {s : String} {g : CafGroups}
    (h : matchCAF (normalizeCaf s).toList = some g) :
    (normalizeCaf s).toList = g.uf ++ g.mes ++ g.ano ++ ['.'] ++ g.cod1 ++ ['.'] ++ g.cod2
      ++ g.ident ++ g.tail ++ ['C', 'A', 'F'] := by
  obtain ⟨ws1, cafL, ws2, heq, hws1, hws2, hrest⟩ := matchCAF_sound h
  have hcafup := hrest.2.2.2.2.2.2.2.2.2.2.2.2.2
  have htoList : (normalizeCaf s).toList = normalizeCafList s.toList := rfl
  -- the leading whitespace group is empty
  have hws1nil : ws1 = [] := by
    cases hcase : ws1 with
    | nil => rfl
    | cons c t =>
      exfalso
      rw [hcase] at heq
      have hhead : (normalizeCafList s.toList).head? = some c := by
        rw [← htoList, heq]
        simp [List.head?_append]
      have := normalize_head_not_space hhead
      rw [hws1 c (by rw [hcase]; exact List.mem_cons_self c t)] at this
      exact Bool.true_eq_false.mp this
  -- the trailing whitespace group is empty
  have hws2nil : ws2 = [] := by
    cases hcase : ws2 with
    | nil => rfl
    | cons c t =>
      exfalso
      have hne : ws2 ≠ [] := by rw [hcase]; exact List.cons_ne_nil c t
      have hlast : ∃ y, ws2.getLast? = some y ∧ y ∈ ws2 := by
        refine ⟨ws2.getLast hne, List.getLast?_eq_getLast ws2 hne, List.getLast_mem hne⟩
      obtain ⟨y, hy, hymem⟩ := hlast
      have hglast : (normalizeCafList s.toList).getLast? = some y := by
        rw [← htoList, heq, List.getLast?_append, hy]
        rfl
      have := normalize_getLast_not_space hglast
      rw [hws2 y hymem] at this
      exact Bool.true_eq_false.mp this
  -- the literal CAF was matched by upper-case characters
  have hcaf : cafL = ['C', 'A', 'F'] := by
    have hfix : cafL.map toUpperCh = cafL := by
      conv_rhs => rw [← List.map_id cafL]
      apply List.map_congr_left
      intro c hc
      show toUpperCh c = c
      apply normalize_mem_toUpperCh_fixed (l := s.toList)
      show c ∈ (normalizeCaf s).toList
      rw [heq]
      simp only [List.mem_append]
      exact Or.inl (Or.inr hc)
    rw [← hfix, hcafup]
  rw [heq, hws1nil, hws2nil, hcaf]
  simp

/-! ## C4: parse followed by reconstruction reproduces the normalised input -/

/-- C4: for every input string on which `parse_caf` succeeds,
concatenating `UF+MES+ANO+"."+COD1+"."+COD2+IDENT+TAIL+"CAF"` from the
returned record reproduces exactly the normalised string stored in the
record. -/
theorem claim_C4_roundtrip (s : String) (p : ParsedCode) (h : parse_caf s = some p) :
    p.UF ++ p.MES ++ p.ANO ++ "." ++ p.COD1 ++ "." ++ p.COD2 ++ p.IDENT ++ p.TAIL ++ "CAF"
      = p.CAF_NORMALIZADO := by
  obtain ⟨g, hm, hp, _⟩ := parse_caf_eq_some h
  subst hp
  dsimp only
  have hd := matchCAF_norm_decomp hm
  rw [show ("." : String) = String.mk ['.'] from rfl,
    show ("CAF" : String) = String.mk ['C', 'A', 'F'] from rfl]
  simp only [mkAppend]
  rw [show normalizeCaf s = String.mk ((normalizeCaf s).toList) from rfl, hd]

/-- Witness for C4 at the spec's example code. -/
theorem claim_C4_roundtrip_witness :
    parse_caf "ba032025.01.00**39367caf"
      = some ⟨"BA", "03", "2025", "01", "00", "**", "39367", "BA032025.01.00**39367CAF"⟩ ∧
    ("BA" : String) ++ "03" ++ "2025" ++ "." ++ "01" ++ "." ++ "00" ++ "**" ++ "39367" ++ "CAF"
      = "BA032025.01.00**39367CAF" :=
  ⟨by decide, claim_C4_roundtrip "ba032025.01.00**39367caf"
    ⟨"BA", "03", "2025", "01", "00", "**", "39367", "BA032025.01.00**39367CAF"⟩ (by decide)⟩

/-! ## C9: parse returns null on empty, whitespace-only, non-matching input -/

theorem parse_caf_eq_none_of_match_none {s : String}
    (hm : matchCAF (normalizeCaf s).toList = none) : parse_caf s = none := by
  by_cases hs : s = ""
  · rw [parse_caf, if_pos hs]
  · simp only [parse_caf, if_neg hs, hm]

/-- C9: `parse_caf` returns `none` — raising no exception, being a total
function — on the empty string, on every whitespace-only string, and on
every string whose normalisation does not match the grammar; in
particular on `""`, `"   "` and `"not-a-code"`. -/
theorem claim_C9_parse_null :
    parse_caf "" = none ∧
    (∀ s : String, (∀ c ∈ s.toList, isSpaceCh c = true) → parse_caf s = none) ∧
    (∀ s : String, matchCAF (normalizeCaf s).toList = none → parse_caf s = none) ∧
    parse_caf "   " = none ∧ parse_caf "not-a-code" = none := by
  refine ⟨rfl, ?_, ?_, by decide, by decide⟩
  · intro s hall
    apply parse_caf_eq_none_of_match_none
    have hstrip : pyStripList s.toList = [] := by
      unfold pyStripList
      rw [dropWhile_eq_nil_of_all hall]
      rfl
    have hnorm : (normalizeCaf s).toList = [] := by
      show normalizeCafList s.toList = []
      unfold normalizeCafList
      rw [hstrip]
      rfl
    rw [hnorm]
    rfl
  · intro s hm
    exact parse_caf_eq_none_of_match_none hm

/-- Witness for C9 at a whitespace-only and a non-matching string. -/
theorem claim_C9_parse_null_witness :
    (∀ c ∈ ("  " : String).toList, isSpaceCh c = true) ∧ parse_caf "  " = none ∧
    matchCAF (normalizeCaf "xyz").toList = none ∧ parse_caf "xyz" = none :=
  ⟨by decide, claim_C9_parse_null.2.1 "  " (by decide), by decide,
    claim_C9_parse_null.2.2.1 "xyz" (by decide)⟩

/-! ## C7: case- and whitespace-insensitivity -/

theorem removeSpaces_cons_space (l : List Char) : removeSpaces (' ' :: l) = removeSpaces l := by
  simp [removeSpaces]

theorem removeSpaces_cons_keep {c : Char} (l : List Char) (h : c ≠ ' ') :
    removeSpaces (c :: l) = c :: removeSpaces l := by
  simp [removeSpaces, List.filter_cons, h]

theorem isVariantCore_removeSpaces {s v : List Char} (hs : ∀ c ∈ s, isSpaceCh c = false)
    (h : isVariantCore s v = true) :
    removeSpaces (v.map toUpperCh) = removeSpaces (s.map toUpperCh) ∧
    (∀ c ∈ v, isSpaceCh c = true → c = ' ') := by
  induction v generalizing s with
  | nil =>
    cases s with
    | nil => exact ⟨rfl, by intro c hc; simp at hc⟩
    | cons c0 s' => simp [isVariantCore] at h
  | cons c' v' ih =>
    cases s with
    | nil =>
      simp only [isVariantCore, Bool.and_eq_true, decide_eq_true_eq] at h
      obtain ⟨hc', hrec⟩ := h
      obtain ⟨ih1, ih2⟩ := ih (s := []) (by intro c hc; simp at hc) hrec
      subst hc'
      refine ⟨?_, ?_⟩
      · rw [List.map_cons, show toUpperCh ' ' = ' ' from by decide, removeSpaces_cons_space, ih1]
      · intro c hc _
        rcases List.mem_cons.mp hc with rfl | hcv
        · rfl
        · exact ih2 c hcv (by assumption)
    | cons c0 s' =>
      simp only [isVariantCore, Bool.or_eq_true, Bool.and_eq_true, decide_eq_true_eq] at h
      rcases h with ⟨hup, hrec⟩ | ⟨hsp', hrec⟩
      · have hs' : ∀ c ∈ s', isSpaceCh c = false := fun c hc => hs c (List.mem_cons_of_mem _ hc)
        obtain ⟨ih1, ih2⟩ := ih hs' hrec
        have hc0 : isSpaceCh c0 = false := hs c0 (List.mem_cons_self c0 s')
        have hc' : isSpaceCh c' = false := by
          rw [← isSpaceCh_toUpperCh c', hup, isSpaceCh_toUpperCh]
          exact hc0
        refine ⟨?_, ?_⟩
        · rw [List.map_cons, List.map_cons, hup,
            removeSpaces_cons_keep _ (ne_space_of_not_spaceCh (by rw [isSpaceCh_toUpperCh]; exact hc0)),
            removeSpaces_cons_keep _ (ne_space_of_not_spaceCh (by rw [isSpaceCh_toUpperCh]; exact hc0)),
            ih1]
        · intro c hc hsp
          rcases List.mem_cons.mp hc with rfl | hcv
          · rw [hc'] at hsp
            exact absurd hsp (by simp)
          · exact ih2 c hcv hsp
      · subst hsp'
        obtain ⟨ih1, ih2⟩ := ih hs hrec
        refine ⟨?_, ?_⟩
        · rw [List.map_cons, show toUpperCh ' ' = ' ' from by decide, removeSpaces_cons_space, ih1]
        · intro c hc _
          rcases List.mem_cons.mp hc with rfl | hcv
          · rfl
          · exact ih2 c hcv (by assumption)

theorem pyStripList_ws_left {ws x : List Char} (h : ∀ c ∈ ws, isSpaceCh c = true) :
    pyStripList (ws ++ x) = pyStripList x := by
  unfold pyStripList
  rw [List.dropWhile_append_of_pos h]

theorem pyStripList_ws_right {x ws : List Char} (h : ∀ c ∈ ws, isSpaceCh c = true) :
    pyStripList (x ++ ws) = pyStripList x := by
  unfold pyStripList
  rw [List.dropWhile_append]
  by_cases he : (x.dropWhile isSpaceCh).isEmpty
  · rw [if_pos he]
    rw [dropWhile_eq_nil_of_all h]
    have hx : x.dropWhile isSpaceCh = [] := by
      cases hc : x.dropWhile isSpaceCh with
      | nil => rfl
      | cons a t => rw [hc] at he; simp [List.isEmpty] at he
    rw [hx]
  · rw [if_neg he, List.reverse_append,
      List.dropWhile_append_of_pos (by intro c hc; exact h c (List.mem_reverse.mp hc))]

theorem removeSpaces_map_eq_nil_of_spaces {T : List Char} (h : ∀ c ∈ T, c = ' ') :
    removeSpaces (T.map toUpperCh) = [] := by
  unfold removeSpaces
  rw [List.filter_eq_nil_iff]
  intro a ha
  rcases List.mem_map.mp ha with ⟨d, hd, hda⟩
  rw [h d hd] at hda
  rw [show toUpperCh ' ' = ' ' from by decide] at hda
  simp [← hda]

theorem removeSpaces_map_upper_strip {l : List Char} (h : ∀ c ∈ l, isSpaceCh c = true → c = ' ') :
    removeSpaces ((pyStripList l).map toUpperCh) = removeSpaces (l.map toUpperCh) := by
  have hl : l = l.takeWhile isSpaceCh ++ l.dropWhile isSpaceCh :=
    (List.takeWhile_append_dropWhile isSpaceCh l).symm
  have hT : ∀ c ∈ l.takeWhile isSpaceCh, c = ' ' := by
    intro c hc
    exact h c ((List.takeWhile_sublist isSpaceCh).mem hc) (mem_takeWhile_sat hc)
  set D := l.dropWhile isSpaceCh with hD
  have hD2 : D = (D.reverse.dropWhile isSpaceCh).reverse ++ (D.reverse.takeWhile isSpaceCh).reverse := by
    conv_lhs => rw [← List.reverse_reverse D]
    rw [← List.reverse_append, List.takeWhile_append_dropWhile]
  have hT2 : ∀ c ∈ (D.reverse.takeWhile isSpaceCh).reverse, c = ' ' := by
    intro c hc
    rw [List.mem_reverse] at hc
    have hcl : c ∈ l := by
      have h1 : c ∈ D.reverse := (List.takeWhile_sublist isSpaceCh).mem hc
      rw [List.mem_reverse] at h1
      exact (List.dropWhile_sublist isSpaceCh).mem h1
    exact h c hcl (mem_takeWhile_sat hc)
  have hstrip : pyStripList l = (D.reverse.dropWhile isSpaceCh).reverse := rfl
  conv_rhs => rw [hl]
  rw [List.map_append]
  unfold removeSpaces
  rw [List.filter_append]
  rw [show List.filter (fun c => !(c == ' ')) ((l.takeWhile isSpaceCh).map toUpperCh) = [] from
    removeSpaces_map_eq_nil_of_spaces hT]
  rw [List.nil_append]
  conv_rhs => rw [hD2]
  rw [List.map_append, List.filter_append]
  rw [show List.filter (fun c => !(c == ' ')) (((D.reverse.takeWhile isSpaceCh).reverse).map toUpperCh) = []
    from removeSpaces_map_eq_nil_of_spaces hT2]
  rw [List.append_nil, hstrip]

theorem mk_toList (s : String) : String.mk s.toList = s := by
  cases s
  rfl

theorem norm_decomp_no_space {s : String} {g : CafGroups}
    (h : matchCAF (normalizeCaf s).toList = some g) :
    ∀ c ∈ (normalizeCaf s).toList, isSpaceCh c = false := by
  have hd := matchCAF_norm_decomp h
  obtain ⟨ws1, cafL, ws2, heq, hws1, hws2, hlenuf, haluf, hlenmes, halmes, hlenano, halano,
    hlenc1, halc1, hlenc2, halc2, hshape, hlentl, haltl, hcafup⟩ := matchCAF_sound h
  intro c hc
  rw [hd] at hc
  simp only [List.mem_append, List.mem_singleton] at hc
  rcases hc with ((((((((hc | hc) | hc) | hc) | hc) | hc) | hc) | hc) | hc) | hc
  · exact isSpaceCh_false_of_letter (haluf c hc)
  · exact isSpaceCh_false_of_digit (halmes c hc)
  · exact isSpaceCh_false_of_digit (halano c hc)
  · rw [hc]; decide
  · exact isSpaceCh_false_of_digit (halc1 c hc)
  · rw [hc]; decide
  · exact isSpaceCh_false_of_digit (halc2 c hc)
  · rcases hshape with hsh | ⟨a, b, hab, hxa, hxb⟩ | ⟨_, hdig⟩
    · rw [hsh] at hc
      simp only [List.mem_cons, List.not_mem_nil, or_false] at hc
      rcases hc with rfl | rfl <;> decide
    · rw [hab] at hc
      simp only [List.mem_cons, List.not_mem_nil, or_false] at hc
      rcases hc with rfl | rfl
      · rw [← isSpaceCh_toUpperCh, hxa]
        decide
      · rw [← isSpaceCh_toUpperCh, hxb]
        decide
    · exact isSpaceCh_false_of_digit (hdig c hc)
  · exact isSpaceCh_false_of_digit (haltl c hc)
  · simp only [List.mem_cons, List.not_mem_nil, or_false] at hc
    rcases hc with rfl | rfl | rfl <;> decide

/-- C7 counterexample: parsing is not insensitive to arbitrary inserted
whitespace.  The clean code parses, but the variant obtained by
inserting a tab character in the interior returns `none` instead of the
same record, because normalisation removes only spaces (and
leading/trailing whitespace), and an interior tab defeats the grammar. -/
theorem claim_C7_counterexample :
    parse_caf "BA032025.01.00**39367CAF"
      = some ⟨"BA", "03", "2025", "01", "00", "**", "39367", "BA032025.01.00**39367CAF"⟩ ∧
    parse_caf "BA03\t2025.01.00**39367CAF" = none :=
  ⟨by decide, by decide⟩

/-- C7 (amended): parsing is case-insensitive, insensitive to interior
*space* characters, and insensitive to leading/trailing whitespace: if
`s` parses to `p` and `s` is the normalised code itself, then any
variant consisting of leading whitespace `ws1`, a core obtained from
`s` by case changes and space insertions, and trailing whitespace `ws2`
parses to the same record `p`.  (Interior non-space whitespace is not
tolerated, per the counterexample.) -/
theorem claim_C7_amended (s v : String) (p : ParsedCode) (ws1 ws2 core : List Char)
    (hp : parse_caf s = some p) (hn : s = p.CAF_NORMALIZADO)
    (hws1 : ∀ c ∈ ws1, isSpaceCh c = true) (hws2 : ∀ c ∈ ws2, isSpaceCh c = true)
    (hcore : isVariantCore s.toList core = true)
    (hv : v.toList = ws1 ++ core ++ ws2) :
    parse_caf v = some p := by
  obtain ⟨g, hm, hpdef, hne⟩ := parse_caf_eq_some hp
  have hcafn : p.CAF_NORMALIZADO = normalizeCaf s := by rw [hpdef]
  have hsfix : s = normalizeCaf s := hn.trans hcafn
  have hsnos : ∀ c ∈ s.toList, isSpaceCh c = false := by
    intro c hc
    apply norm_decomp_no_space hm
    rw [← congrArg String.toList hsfix]
    exact hc
  obtain ⟨hvar1, hvar2⟩ := isVariantCore_removeSpaces hsnos hcore
  have hsupper : s.toList.map toUpperCh = s.toList := by
    conv_rhs => rw [← List.map_id s.toList]
    apply List.map_congr_left
    intro c hc
    show toUpperCh c = c
    apply normalize_mem_toUpperCh_fixed (l := s.toList)
    show c ∈ (normalizeCaf s).toList
    rw [← hsfix]
    exact hc
  have hsnospace : removeSpaces s.toList = s.toList := by
    unfold removeSpaces
    rw [List.filter_eq_self]
    intro c hc
    simp only [Bool.not_eq_true', beq_eq_false_iff_ne]
    exact ne_space_of_not_spaceCh (hsnos c hc)
  have hnormv : normalizeCafList v.toList = s.toList := by
    rw [hv]
    unfold normalizeCafList
    rw [pyStripList_ws_right hws2, pyStripList_ws_left hws1,
      removeSpaces_map_upper_strip hvar2, hvar1, hsupper, hsnospace]
  have hvne : v ≠ "" := by
    intro h0
    have hv0 : v.toList = [] := by rw [h0]; rfl
    have : s.toList = [] := by rw [← hnormv, hv0]; rfl
    have hs0 : s = "" := by
      have := congrArg String.mk this
      rw [mk_toList] at this
      exact this
    exact hne hs0
  have hnv : normalizeCaf v = normalizeCaf s := by
    unfold normalizeCaf
    rw [hnormv, mk_toList]
    exact hsfix
  simp only [parse_caf, if_neg hvne, hnv, hm]
  rw [hpdef]

/-- Witness for the amended C7: a variant with a leading space, a
trailing tab, lower-cased letters and one interior space parses to the
same record as the clean code. -/
theorem claim_C7_amended_witness :
    parse_caf "BA032025.01.00**39367CAF"
      = some ⟨"BA", "03", "2025", "01", "00", "**", "39367", "BA032025.01.00**39367CAF"⟩ ∧
    isVariantCore ("BA032025.01.00**39367CAF" : String).toList
      ("ba 032025.01.00**39367caf" : String).toList = true ∧
    parse_caf " ba 032025.01.00**39367caf\t"
      = some ⟨"BA", "03", "2025", "01", "00", "**", "39367", "BA032025.01.00**39367CAF"⟩ :=
  ⟨by decide, by decide,
    claim_C7_amended "BA032025.01.00**39367CAF" " ba 032025.01.00**39367caf\t"
      ⟨"BA", "03", "2025", "01", "00", "**", "39367", "BA032025.01.00**39367CAF"⟩
      [' '] ['\t'] ("ba 032025.01.00**39367caf" : String).toList
      (by decide) (by decide) (by decide) (by decide) (by decide) (by decide)⟩

/-! ## Helper lemmas: matcher completeness (for well-formed combos) -/

theorem takeCount_exact {p : Char → Bool} :
    ∀ {xs : List Char} {rest : List Char} {n : Nat}, xs.length = n → (∀ c ∈ xs, p c = true) →
      takeCount p n (xs ++ rest) = some (xs, rest) := by
  intro xs
  induction xs with
  | nil =>
    intro rest n h _
    subst h
    rfl
  | cons c t ih =>
    intro rest n h hall
    subst h
    show takeCount p (t.length + 1) ((c :: t) ++ rest) = some (c :: t, rest)
    rw [List.cons_append]
    simp only [takeCount]
    rw [if_pos (hall c (List.mem_cons_self c t))]
    rw [ih rfl (fun c' hc' => hall c' (List.mem_cons_of_mem c hc'))]
    rfl

theorem expectChar_self (ch : Char) (rest : List Char) : expectChar ch (ch :: rest) = some rest := by
  simp [expectChar]

theorem matchIdentAlt_digits {d1 d2 : Char} (h1 : isDigitCh d1 = true) (h2 : isDigitCh d2 = true)
    (rest : List Char) : matchIdentAlt (d1 :: d2 :: rest) = some ([d1, d2], rest) := by
  simp only [matchIdentAlt]
  rw [if_neg (fun hcon => digit_ne_star h1 hcon.1),
    if_neg (fun hcon => toUpperCh_digit_ne_X h1 hcon.1),
    if_pos ⟨h1, h2⟩]

theorem expectLitIC_CAF (rest : List Char) :
    expectLitIC ['C', 'A', 'F'] ('C' :: 'A' :: 'F' :: rest) = some (['C', 'A', 'F'], rest) := by
  simp [expectLitIC, show toUpperCh 'C' = 'C' from by decide,
    show toUpperCh 'A' = 'A' from by decide, show toUpperCh 'F' = 'F' from by decide]

theorem dropWhile_eq_self_of_head {p : Char → Bool} {l : List Char} {c : Char}
    (hh : l.head? = some c) (hc : p c = false) : l.dropWhile p = l := by
  cases l with
  | nil => simp at hh
  | cons a t =>
    simp only [List.head?_cons, Option.some.injEq] at hh
    subst hh
    rw [List.dropWhile_cons_of_neg]
    simp [hc]

theorem matchCAF_complete {uf mes ano c1 c2 tl : List Char} {d1 d2 : Char}
    (hufl : uf.length = 2) (hufa : ∀ c ∈ uf, isLetterIC c = true)
    (hmesl : mes.length = 2) (hmesa : ∀ c ∈ mes, isDigitCh c = true)
    (hanol : ano.length = 4) (hanoa : ∀ c ∈ ano, isDigitCh c = true)
    (hc1l : c1.length = 2) (hc1a : ∀ c ∈ c1, isDigitCh c = true)
    (hc2l : c2.length = 2) (hc2a : ∀ c ∈ c2, isDigitCh c = true)
    (hd1 : isDigitCh d1 = true) (hd2 : isDigitCh d2 = true)
    (htll : tl.length = 5) (htla : ∀ c ∈ tl, isDigitCh c = true) :
    matchCAF (uf ++ (mes ++ (ano ++ ('.' :: (c1 ++ ('.' :: (c2 ++ (d1 :: d2 :: (tl
        ++ ['C', 'A', 'F'])))))))))
      = some ⟨uf, mes, ano, c1, c2, [d1, d2], tl⟩ := by
  obtain ⟨u1, u2, rfl⟩ := List.length_eq_two.mp hufl
  have hu1 : isLetterIC u1 = true := hufa u1 (by simp)
  unfold matchCAF
  rw [dropWhile_eq_self_of_head (c := u1) (by simp) (isSpaceCh_false_of_letter hu1)]
  rw [takeCount_exact hufl hufa, Option.some_bind]
  dsimp only
  rw [takeCount_exact hmesl hmesa, Option.some_bind]
  dsimp only
  rw [takeCount_exact hanol hanoa, Option.some_bind]
  dsimp only
  rw [expectChar_self, Option.some_bind]
  rw [takeCount_exact hc1l hc1a, Option.some_bind]
  dsimp only
  rw [expectChar_self, Option.some_bind]
  rw [takeCount_exact hc2l hc2a, Option.some_bind]
  dsimp only
  rw [matchIdentAlt_digits hd1 hd2, Option.some_bind]
  dsimp only
  rw [show tl ++ ['C', 'A', 'F'] = tl ++ ('C' :: 'A' :: 'F' :: []) from rfl]
  rw [takeCount_exact htll htla, Option.some_bind]
  dsimp only
  rw [expectLitIC_CAF, Option.some_bind]
  simp

/-! ## Helper lemmas: the row scan -/

theorem processRow_eq_some_some_iff {mes ano : String} {row : List Cell} {s : String} :
    processRow mes ano row = some (some s) ↔ rowYields mes ano row s := by
  unfold processRow rowYields
  cases h1 : row[1]? with
  | none =>
    cases h2 : row[2]? <;> simp
  | some mv =>
    cases h2 : row[2]? with
    | none => simp
    | some av =>
      simp only
      by_cases hcond : mes_ok_of mv = some mes ∧ ano_ok_of av = some ano
      · rw [if_pos hcond]
        cases hic : identCoerce (identCellOf row) with
        | none =>
          simp [hcond]
        | some n =>
          dsimp only
          by_cases hr : 0 ≤ n ∧ n ≤ 99
          · rw [if_pos hr]
            simp only [Option.some.injEq]
            constructor
            · intro hx
              exact ⟨mv, av, n, rfl, rfl, hcond.1, hcond.2, rfl, hr.1, hr.2, hx.symm⟩
            · rintro ⟨mv', av', n', hmv, hav, _, _, hn, _, _, hs⟩
              subst hn
              rw [hs]
          · rw [if_neg hr]
            simp only [Option.some.injEq]
            constructor
            · intro hx
              exact absurd hx.symm (by simp)
            · rintro ⟨mv', av', n', hmv, hav, _, _, hn, hn0, hn99, hs⟩
              subst hn
              exact absurd ⟨hn0, hn99⟩ hr
      · rw [if_neg hcond]
        simp only [Option.some.injEq]
        constructor
        · intro hx
          exact absurd hx.symm (by simp)
        · rintro ⟨mv', av', n', hmv, hav, hmes, hano, _⟩
          subst hmv
          subst hav
          exact absurd ⟨hmes, hano⟩ hcond

theorem scanRows_ok_spec (mes ano : String) :
    ∀ (rows : List (List Cell)) (vistos ids : List String),
      (∀ x, x ∈ vistos ↔ x ∈ ids) → ids.Nodup →
      ∀ out, scanRows mes ano rows vistos ids = some out →
        out.Nodup ∧
        (∀ s, s ∈ out ↔ s ∈ ids ∨ ∃ row ∈ rows, processRow mes ano row = some (some s)) := by
  intro rows
  induction rows with
  | nil =>
    intro vistos ids hvi hnd out h
    simp only [scanRows, Option.some.injEq] at h
    subst h
    refine ⟨hnd, fun s => ?_⟩
    constructor
    · intro hs
      exact Or.inl hs
    · rintro (hs | ⟨row, hrow, _⟩)
      · exact hs
      · simp at hrow
  | cons row rest ih =>
    intro vistos ids hvi hnd out h
    simp only [scanRows] at h
    cases hpr : processRow mes ano row with
    | none =>
      simp only [hpr] at h
      exact Option.noConfusion h
    | some o =>
      cases o with
      | none =>
        simp only [hpr] at h
        obtain ⟨h1, h2⟩ := ih vistos ids hvi hnd out h
        refine ⟨h1, fun s => ?_⟩
        rw [h2 s]
        constructor
        · rintro (hs | ⟨r, hr, hy⟩)
          · exact Or.inl hs
          · exact Or.inr ⟨r, List.mem_cons_of_mem _ hr, hy⟩
        · rintro (hs | ⟨r, hr, hy⟩)
          · exact Or.inl hs
          · rcases List.mem_cons.mp hr with rfl | hr'
            · rw [hpr] at hy
              simp at hy
            · exact Or.inr ⟨r, hr', hy⟩
      | some cod =>
        simp only [hpr] at h
        by_cases hin : cod ∈ vistos
        · rw [if_pos hin] at h
          obtain ⟨h1, h2⟩ := ih vistos ids hvi hnd out h
          refine ⟨h1, fun s => ?_⟩
          rw [h2 s]
          constructor
          · rintro (hs | ⟨r, hr, hy⟩)
            · exact Or.inl hs
            · exact Or.inr ⟨r, List.mem_cons_of_mem _ hr, hy⟩
          · rintro (hs | ⟨r, hr, hy⟩)
            · exact Or.inl hs
            · rcases List.mem_cons.mp hr with rfl | hr'
              · rw [hpr] at hy
                injection hy with hy'
                injection hy' with hy2
                exact Or.inl (by rw [← hy2]; exact (hvi cod).mp hin)
              · exact Or.inr ⟨r, hr', hy⟩
        · rw [if_neg hin] at h
          have hnotids : cod ∉ ids := fun hcon => hin ((hvi cod).mpr hcon)
          have hvi' : ∀ x, x ∈ (cod :: vistos) ↔ x ∈ ids ++ [cod] := by
            intro x
            simp only [List.mem_cons, List.mem_append, List.mem_singleton]
            rw [hvi x]
            tauto
          have hnd' : (ids ++ [cod]).Nodup := by
            simp [List.nodup_append, hnd, hnotids]
          obtain ⟨h1, h2⟩ := ih (cod :: vistos) (ids ++ [cod]) hvi' hnd' out h
          refine ⟨h1, fun s => ?_⟩
          rw [h2 s]
          constructor
          · rintro (hs | ⟨r, hr, hy⟩)
            · rcases List.mem_append.mp hs with hs' | hs'
              · exact Or.inl hs'
              · have hscod : s = cod := by simpa using hs'
                refine Or.inr ⟨row, List.mem_cons_self row rest, ?_⟩
                rw [hscod]
                exact hpr
            · exact Or.inr ⟨r, List.mem_cons_of_mem _ hr, hy⟩
          · rintro (hs | ⟨r, hr, hy⟩)
            · exact Or.inl (List.mem_append.mpr (Or.inl hs))
            · rcases List.mem_cons.mp hr with rfl | hr'
              · rw [hpr] at hy
                injection hy with hy'
                injection hy' with hy2
                exact Or.inl (List.mem_append.mpr (Or.inr (by simp [← hy2])))
              · exact Or.inr ⟨r, hr', hy⟩

/-! ## C1: listIdentifiers characterisation -/

/-- C1: whenever `ler_identificadores_unicos_ordenados` returns a list
(no exception raised), that list has no duplicates, is sorted ascending
by integer value, and its elements are exactly the zero-padded 2-digit
renderings of the identifier-column values that coerce to an integer in
`[0, 99]` in rows whose month and year coerce to the requested values. -/
theorem claim_C1_listIdentifiers (sheet : Sheet) (mes ano : String) (out : List String)
    (h : ler_identificadores_unicos_ordenados (some sheet) mes ano = .ok out) :
    out.Nodup ∧ List.Sorted (fun a b => sortKey a ≤ sortKey b) out ∧
    (∀ s, s ∈ out ↔ ∃ row ∈ sheet.drop 1, rowYields mes ano row s) := by
  unfold ler_identificadores_unicos_ordenados at h
  cases hscan : scanRows mes ano (sheet.drop 1) [] [] with
  | none =>
    simp only [hscan] at h
    exact Except.noConfusion h
  | some ids =>
    simp only [hscan, Except.ok.injEq] at h
    subst h
    obtain ⟨hnd, hmem⟩ := scanRows_ok_spec mes ano (sheet.drop 1) [] []
      (by intro x; simp) List.nodup_nil ids hscan
    refine ⟨?_, ?_, ?_⟩
    · exact ((List.perm_insertionSort _ ids).nodup_iff).mpr hnd
    · exact List.sorted_insertionSort _ ids
    · intro s
      rw [List.mem_insertionSort, hmem s]
      simp only [List.not_mem_nil, false_or]
      constructor
      · rintro ⟨row, hrow, hy⟩
        exact ⟨row, hrow, processRow_eq_some_some_iff.mp hy⟩
      · rintro ⟨row, hrow, hy⟩
        exact ⟨row, hrow, processRow_eq_some_some_iff.mpr hy⟩

/-- Witness for C1 on the spec's worked example: rows for 03/2025 with
identifiers 5, 12, 5, "bad", 130, 7 give exactly `["05","07","12"]`. -/
theorem claim_C1_listIdentifiers_witness :
    ler_identificadores_unicos_ordenados (some exampleSheet) "03" "2025"
      = .ok ["05", "07", "12"] ∧
    (["05", "07", "12"] : List String).Nodup ∧
    List.Sorted (fun a b => sortKey a ≤ sortKey b) ["05", "07", "12"] ∧
    ("07" ∈ (["05", "07", "12"] : List String)
      ↔ ∃ row ∈ exampleSheet.drop 1, rowYields "03" "2025" row "07") :=
  ⟨rfl,
    (claim_C1_listIdentifiers exampleSheet "03" "2025" ["05", "07", "12"] rfl).1,
    (claim_C1_listIdentifiers exampleSheet "03" "2025" ["05", "07", "12"] rfl).2.1,
    (claim_C1_listIdentifiers exampleSheet "03" "2025" ["05", "07", "12"] rfl).2.2 "07"⟩

/-! ## C6: tolerance of malformed rows -/

theorem scanRows_skip (mes ano : String) {row : List Cell}
    (hrow : processRow mes ano row = some Option.none) :
    ∀ (pre : List (List Cell)) (post : List (List Cell)) (vistos ids : List String),
      scanRows mes ano (pre ++ row :: post) vistos ids
        = scanRows mes ano (pre ++ post) vistos ids := by
  intro pre
  induction pre with
  | nil =>
    intro post vistos ids
    show scanRows mes ano (row :: post) vistos ids = scanRows mes ano post vistos ids
    simp only [scanRows, hrow]
  | cons r pre' ih =>
    intro post vistos ids
    simp only [List.cons_append, scanRows]
    cases hpr : processRow mes ano r with
    | none => rfl
    | some o =>
      cases o with
      | none => exact ih post vistos ids
      | some cod =>
        dsimp only
        by_cases hin : cod ∈ vistos
        · rw [if_pos hin, if_pos hin]
          exact ih post vistos ids
        · rw [if_neg hin, if_neg hin]
          exact ih post (cod :: vistos) (ids ++ [cod])

theorem processRow_none_of_malformed {mes ano : String} {row : List Cell}
    (hlen : 3 ≤ row.length) (hmal : rowMalformed row) :
    processRow mes ano row = some Option.none := by
  have hmv : row[1]? = some row[1] := List.getElem?_eq_getElem (by omega)
  have hav : row[2]? = some row[2] := List.getElem?_eq_getElem (by omega)
  unfold processRow
  simp only [hmv, hav]
  rcases hmal with ⟨mv', hmv', hmesnone⟩ | ⟨av', hav', hanonone⟩ | hidnone | ⟨n, hn, hout⟩ | hlen6
  · rw [hmv] at hmv'
    injection hmv' with e
    subst e
    rw [if_neg]
    rintro ⟨hc, -⟩
    rw [hmesnone] at hc
    exact Option.noConfusion hc
  · rw [hav] at hav'
    injection hav' with e
    subst e
    rw [if_neg]
    rintro ⟨-, hc⟩
    rw [hanonone] at hc
    exact Option.noConfusion hc
  · by_cases hcond : mes_ok_of row[1] = some mes ∧ ano_ok_of row[2] = some ano
    · rw [if_pos hcond]
      simp only [hidnone]
    · rw [if_neg hcond]
  · by_cases hcond : mes_ok_of row[1] = some mes ∧ ano_ok_of row[2] = some ano
    · rw [if_pos hcond]
      simp only [hn]
      rw [if_neg (by omega)]
    · rw [if_neg hcond]
  · have hnone : identCellOf row = Cell.none := by
      unfold identCellOf
      rw [if_neg (by omega)]
    have hco : identCoerce (identCellOf row) = Option.none := by
      rw [hnone]
      decide
    by_cases hcond : mes_ok_of row[1] = some mes ∧ ano_ok_of row[2] = some ano
    · rw [if_pos hcond]
      simp only [hco]
    · rw [if_neg hcond]

/-- C6 counterexample: a data row with fewer than 3 cells is
"malformed" in the claim's sense, yet `ler_identificadores` raises an
`IndexError` (the accesses `row[1]`/`row[2]` sit outside any `try`),
rather than skipping the row silently. -/
theorem claim_C6_counterexample :
    rowMalformed [Cell.int 1, Cell.int 2025] ∧
    ler_identificadores_unicos_ordenados
      (some [[Cell.str "mes", Cell.str "ano"], [Cell.int 1, Cell.int 2025]]) "01" "2025"
      = .error .indexError :=
  ⟨Or.inr (Or.inr (Or.inr (Or.inr (by decide)))), rfl⟩

/-- C6 (amended): a malformed data row that still has at least 3 cells
(failed month/year/identifier coercion, identifier out of `[0, 99]`, or
between 3 and 5 cells) is skipped silently: it contributes nothing and
the result on the remaining rows is unchanged.  A data row with fewer
than 3 cells instead makes the function raise an `IndexError`, per the
counterexample. -/
theorem claim_C6_amended (mes ano : String) (hdr row : List Cell)
    (pre post : List (List Cell)) (hlen : 3 ≤ row.length) (hmal : rowMalformed row) :
    ler_identificadores_unicos_ordenados (some (hdr :: (pre ++ row :: post))) mes ano
      = ler_identificadores_unicos_ordenados (some (hdr :: (pre ++ post))) mes ano := by
  unfold ler_identificadores_unicos_ordenados
  simp only [List.drop_succ_cons, List.drop_zero]
  rw [scanRows_skip mes ano (processRow_none_of_malformed hlen hmal) pre post [] []]

/-- Witness for the amended C6: a 3-cell row (month 3, year 2025, no
identifier columns) is skipped and the scan of the remaining rows is
unaffected. -/
theorem claim_C6_amended_witness :
    3 ≤ ([Cell.none, Cell.int 3, Cell.int 2025] : List Cell).length ∧
    rowMalformed [Cell.none, Cell.int 3, Cell.int 2025] ∧
    ler_identificadores_unicos_ordenados
      (some ([Cell.str "h"] :: ([] ++ [Cell.none, Cell.int 3, Cell.int 2025]
        :: [[Cell.none, Cell.int 3, Cell.int 2025, Cell.none, Cell.none, Cell.int 5]]))) "03" "2025"
      = ler_identificadores_unicos_ordenados
        (some ([Cell.str "h"] :: ([]
          ++ [[Cell.none, Cell.int 3, Cell.int 2025, Cell.none, Cell.none, Cell.int 5]]))) "03" "2025" :=
  ⟨by decide, Or.inr (Or.inr (Or.inr (Or.inr (by decide)))),
    claim_C6_amended "03" "2025" [Cell.str "h"] [Cell.none, Cell.int 3, Cell.int 2025]
      [] [[Cell.none, Cell.int 3, Cell.int 2025, Cell.none, Cell.none, Cell.int 5]]
      (by decide) (Or.inr (Or.inr (Or.inr (Or.inr (by decide)))))⟩

/-! ## C2 and C3: combo expansion -/

theorem strAppend_assoc (a b c : String) : a ++ b ++ c = a ++ (b ++ c) := by
  cases a
  cases b
  cases c
  simp only [mkAppend, List.append_assoc]

/-- C2: when `IDENT` is a wildcard marker, `gerar_combos` returns one
combo per member of `ids_lista`, in the same order, each formed as
`UF+MES+ANO+"."+COD1+"."+COD2` + member + `TAIL+"CAF"`. -/
theorem claim_C2_wildcard_expand (p : ParsedCode) (ids : List String)
    (h : p.IDENT = "**" ∨ p.IDENT = "XX") :
    gerar_combos p ids = ids.map (fun cod =>
      p.UF ++ p.MES ++ p.ANO ++ "." ++ p.COD1 ++ "." ++ p.COD2 ++ cod ++ (p.TAIL ++ "CAF")) := by
  have hnd : isTwoDigits p.IDENT = false := by
    rcases h with h | h <;> rw [h] <;> decide
  simp only [gerar_combos]
  rw [if_neg (by rw [hnd]; simp)]

/-- Witness for C2: wildcard expansion over `["00","05","12"]`. -/
theorem claim_C2_wildcard_expand_witness :
    ((⟨"BA", "03", "2025", "01", "00", "**", "39367", "BA032025.01.00**39367CAF"⟩ :
        ParsedCode).IDENT = "**" ∨
      (⟨"BA", "03", "2025", "01", "00", "**", "39367", "BA032025.01.00**39367CAF"⟩ :
        ParsedCode).IDENT = "XX") ∧
    gerar_combos ⟨"BA", "03", "2025", "01", "00", "**", "39367", "BA032025.01.00**39367CAF"⟩
        ["00", "05", "12"]
      = List.map (fun cod => ("BA" : String) ++ "03" ++ "2025" ++ "." ++ "01" ++ "." ++ "00"
          ++ cod ++ ("39367" ++ "CAF")) ["00", "05", "12"] :=
  ⟨Or.inl rfl,
    claim_C2_wildcard_expand
      ⟨"BA", "03", "2025", "01", "00", "**", "39367", "BA032025.01.00**39367CAF"⟩
      ["00", "05", "12"] (Or.inl rfl)⟩

/-- C3: when `IDENT` is two literal digits, `gerar_combos` returns the
single combo `prefix+IDENT+tail` exactly when `IDENT` occurs in
`ids_lista`, and the empty list otherwise. -/
theorem claim_C3_literal_expand (p : ParsedCode) (ids : List String)
    (h : isTwoDigits p.IDENT = true) :
    gerar_combos p ids =
      if p.IDENT ∈ ids
      then [p.UF ++ p.MES ++ p.ANO ++ "." ++ p.COD1 ++ "." ++ p.COD2 ++ p.IDENT
        ++ (p.TAIL ++ "CAF")]
      else [] := by
  simp only [gerar_combos]
  rw [if_pos h]

/-- Witness for C3: literal identifier `05` expands to one combo when
present and to nothing when absent. -/
theorem claim_C3_literal_expand_witness :
    isTwoDigits (⟨"BA", "03", "2025", "01", "00", "05", "39367", "X"⟩ :
        ParsedCode).IDENT = true ∧
    gerar_combos ⟨"BA", "03", "2025", "01", "00", "05", "39367", "X"⟩ ["00", "12"] = [] ∧
    gerar_combos ⟨"BA", "03", "2025", "01", "00", "05", "39367", "X"⟩ ["00", "05"]
      = [("BA" : String) ++ "03" ++ "2025" ++ "." ++ "01" ++ "." ++ "00" ++ "05"
        ++ ("39367" ++ "CAF")] :=
  ⟨by decide,
    by rw [claim_C3_literal_expand ⟨"BA", "03", "2025", "01", "00", "05", "39367", "X"⟩
        ["00", "12"] (by decide)]; decide,
    by rw [claim_C3_literal_expand ⟨"BA", "03", "2025", "01", "00", "05", "39367", "X"⟩
        ["00", "05"] (by decide)]; decide⟩

/-! ## C8: every combo is well-formed -/

theorem format02d_digits : ∀ m : Nat, m ≤ 99 →
    (format02d (m : Int)).toList.length = 2 ∧
    ∀ c ∈ (format02d (m : Int)).toList, isDigitCh c = true := by decide

theorem ler_ok_mem_shape {sheet : Sheet} {mes ano : String} {ids : List String}
    (h : ler_identificadores_unicos_ordenados (some sheet) mes ano = .ok ids) :
    ∀ x ∈ ids, ∃ m : Nat, m ≤ 99 ∧ x = format02d (m : Int) := by
  unfold ler_identificadores_unicos_ordenados at h
  cases hscan : scanRows mes ano (sheet.drop 1) [] [] with
  | none =>
    simp only [hscan] at h
    exact Except.noConfusion h
  | some ids0 =>
    simp only [hscan, Except.ok.injEq] at h
    subst h
    obtain ⟨_, hmem⟩ := scanRows_ok_spec mes ano (sheet.drop 1) [] []
      (by intro x; simp) List.nodup_nil ids0 hscan
    intro x hx
    rw [List.mem_insertionSort, hmem x] at hx
    simp only [List.not_mem_nil, false_or] at hx
    obtain ⟨row, _, hy⟩ := hx
    obtain ⟨_, _, n, _, _, _, _, _, hn0, hn99, hxn⟩ := processRow_eq_some_some_iff.mp hy
    refine ⟨n.toNat, ?_, ?_⟩
    · omega
    · rw [hxn, Int.toNat_of_nonneg hn0]

theorem normalizeCafList_fixed {l : List Char} (h1 : ∀ c ∈ l, isSpaceCh c = false)
    (h2 : ∀ c ∈ l, toUpperCh c = c) : normalizeCafList l = l := by
  unfold normalizeCafList
  rw [pyStripList_eq_self h1]
  rw [show l.map toUpperCh = l from by
    conv_rhs => rw [← List.map_id l]
    exact List.map_congr_left (fun c hc => h2 c hc)]
  unfold removeSpaces
  rw [List.filter_eq_self]
  intro c hc
  simp only [Bool.not_eq_true', beq_eq_false_iff_ne]
  exact ne_space_of_not_spaceCh (h1 c hc)

theorem combo_wellformed_core {s : String} {g : CafGroups}
    (hm : matchCAF (normalizeCaf s).toList = some g)
    (D : String) (hDl : D.toList.length = 2) (hDd : ∀ c ∈ D.toList, isDigitCh c = true) :
    (∀ c ∈ (String.mk g.uf ++ String.mk g.mes ++ String.mk g.ano ++ "." ++ String.mk g.cod1
        ++ "." ++ String.mk g.cod2 ++ D ++ (String.mk g.tail ++ "CAF")).toList,
      isSpaceCh c = false) ∧
    ∃ q, parse_caf (String.mk g.uf ++ String.mk g.mes ++ String.mk g.ano ++ "." ++ String.mk g.cod1
        ++ "." ++ String.mk g.cod2 ++ D ++ (String.mk g.tail ++ "CAF")) = some q ∧
      isTwoDigits q.IDENT = true := by
  obtain ⟨ws1, cafL, ws2, heq, hws1, hws2, hlenuf, haluf, hlenmes, halmes, hlenano, halano,
    hlenc1, halc1, hlenc2, halc2, hshape, hlentl, haltl, hcafup⟩ := matchCAF_sound hm
  have hd := matchCAF_norm_decomp hm
  -- every capture-group character is fixed by upper-casing
  have hfix : ∀ c, c ∈ g.uf ∨ c ∈ g.mes ∨ c ∈ g.ano ∨ c ∈ g.cod1 ∨ c ∈ g.cod2 ∨ c ∈ g.tail →
      toUpperCh c = c := by
    intro c hc
    apply normalize_mem_toUpperCh_fixed (l := s.toList)
    show c ∈ (normalizeCaf s).toList
    rw [hd]
    simp only [List.mem_append]
    rcases hc with hc | hc | hc | hc | hc | hc
    · exact Or.inl (Or.inl (Or.inl (Or.inl (Or.inl (Or.inl (Or.inl (Or.inl (Or.inl hc))))))))
    · exact Or.inl (Or.inl (Or.inl (Or.inl (Or.inl (Or.inl (Or.inl (Or.inl (Or.inr hc))))))))
    · exact Or.inl (Or.inl (Or.inl (Or.inl (Or.inl (Or.inl (Or.inl (Or.inr hc)))))))
    · exact Or.inl (Or.inl (Or.inl (Or.inl (Or.inl (Or.inr hc)))))
    · exact Or.inl (Or.inl (Or.inl (Or.inr hc)))
    · exact Or.inl (Or.inr hc)
  obtain ⟨d1, d2, hD2⟩ := List.length_eq_two.mp hDl
  have hd1 : isDigitCh d1 = true := hDd d1 (by rw [hD2]; simp)
  have hd2 : isDigitCh d2 = true := hDd d2 (by rw [hD2]; simp)
  -- the combo as one character list
  have hcombo : (String.mk g.uf ++ String.mk g.mes ++ String.mk g.ano ++ "." ++ String.mk g.cod1
      ++ "." ++ String.mk g.cod2 ++ D ++ (String.mk g.tail ++ "CAF"))
      = String.mk (g.uf ++ g.mes ++ g.ano ++ ['.'] ++ g.cod1 ++ ['.'] ++ g.cod2 ++ [d1, d2]
        ++ (g.tail ++ ['C', 'A', 'F'])) := by
    rw [show ("." : String) = String.mk ['.'] from rfl,
      show ("CAF" : String) = String.mk ['C', 'A', 'F'] from rfl,
      show D = String.mk [d1, d2] from by rw [← hD2, mk_toList]]
    simp only [mkAppend]
  have hchars : ∀ c ∈ (g.uf ++ g.mes ++ g.ano ++ ['.'] ++ g.cod1 ++ ['.'] ++ g.cod2 ++ [d1, d2]
      ++ (g.tail ++ ['C', 'A', 'F'])), isSpaceCh c = false ∧ toUpperCh c = c := by
    intro c hc
    simp only [List.mem_append, List.mem_singleton, List.mem_cons, List.not_mem_nil,
      or_false] at hc
    rcases hc with (((((((hc | hc) | hc) | hc) | hc) | hc) | hc) | hc | hc) | hc | hc | hc | hc
    · exact ⟨isSpaceCh_false_of_letter (haluf c hc), hfix c (Or.inl hc)⟩
    · exact ⟨isSpaceCh_false_of_digit (halmes c hc), hfix c (Or.inr (Or.inl hc))⟩
    · exact ⟨isSpaceCh_false_of_digit (halano c hc), hfix c (Or.inr (Or.inr (Or.inl hc)))⟩
    · subst hc; exact ⟨by decide, by decide⟩
    · exact ⟨isSpaceCh_false_of_digit (halc1 c hc), hfix c (Or.inr (Or.inr (Or.inr (Or.inl hc))))⟩
    · subst hc; exact ⟨by decide, by decide⟩
    · exact ⟨isSpaceCh_false_of_digit (halc2 c hc),
        hfix c (Or.inr (Or.inr (Or.inr (Or.inr (Or.inl hc)))))⟩
    · subst hc; exact ⟨isSpaceCh_false_of_digit hd1, toUpperCh_of_digit hd1⟩
    · subst hc; exact ⟨isSpaceCh_false_of_digit hd2, toUpperCh_of_digit hd2⟩
    · exact ⟨isSpaceCh_false_of_digit (haltl c hc),
        hfix c (Or.inr (Or.inr (Or.inr (Or.inr (Or.inr hc)))))⟩
    · subst hc; exact ⟨by decide, by decide⟩
    · subst hc; exact ⟨by decide, by decide⟩
    · subst hc; exact ⟨by decide, by decide⟩
  rw [hcombo]
  constructor
  · intro c hc
    exact (hchars c hc).1
  · -- the combo parses again, with a two-digit IDENT
    have hne : String.mk (g.uf ++ g.mes ++ g.ano ++ ['.'] ++ g.cod1 ++ ['.'] ++ g.cod2
        ++ [d1, d2] ++ (g.tail ++ ['C', 'A', 'F'])) ≠ "" := by
      intro hcon
      have : (g.uf ++ g.mes ++ g.ano ++ ['.'] ++ g.cod1 ++ ['.'] ++ g.cod2 ++ [d1, d2]
          ++ (g.tail ++ ['C', 'A', 'F'])) = [] := congrArg String.toList hcon
      simp at this
    have hnorm : normalizeCaf (String.mk (g.uf ++ g.mes ++ g.ano ++ ['.'] ++ g.cod1 ++ ['.']
        ++ g.cod2 ++ [d1, d2] ++ (g.tail ++ ['C', 'A', 'F'])))
        = String.mk (g.uf ++ g.mes ++ g.ano ++ ['.'] ++ g.cod1 ++ ['.'] ++ g.cod2 ++ [d1, d2]
          ++ (g.tail ++ ['C', 'A', 'F'])) := by
      unfold normalizeCaf
      rw [show (String.mk (g.uf ++ g.mes ++ g.ano ++ ['.'] ++ g.cod1 ++ ['.'] ++ g.cod2
          ++ [d1, d2] ++ (g.tail ++ ['C', 'A', 'F']))).toList
          = (g.uf ++ g.mes ++ g.ano ++ ['.'] ++ g.cod1 ++ ['.'] ++ g.cod2 ++ [d1, d2]
            ++ (g.tail ++ ['C', 'A', 'F'])) from rfl]
      rw [normalizeCafList_fixed (fun c hc => (hchars c hc).1) (fun c hc => (hchars c hc).2)]
    have hmatch : matchCAF (g.uf ++ g.mes ++ g.ano ++ ['.'] ++ g.cod1 ++ ['.'] ++ g.cod2
        ++ [d1, d2] ++ (g.tail ++ ['C', 'A', 'F']))
        = some ⟨g.uf, g.mes, g.ano, g.cod1, g.cod2, [d1, d2], g.tail⟩ := by
      rw [show (g.uf ++ g.mes ++ g.ano ++ ['.'] ++ g.cod1 ++ ['.'] ++ g.cod2 ++ [d1, d2]
          ++ (g.tail ++ ['C', 'A', 'F']))
          = (g.uf ++ (g.mes ++ (g.ano ++ ('.' :: (g.cod1 ++ ('.' :: (g.cod2 ++ (d1 :: d2 :: (g.tail
            ++ ['C', 'A', 'F'])))))))))
        from by simp [List.append_assoc]]
      exact matchCAF_complete hlenuf haluf hlenmes halmes hlenano halano hlenc1 halc1
        hlenc2 halc2 hd1 hd2 hlentl haltl
    refine ⟨⟨String.mk g.uf, String.mk g.mes, String.mk g.ano, String.mk g.cod1,
      String.mk g.cod2, String.mk [d1, d2], String.mk g.tail,
      String.mk (g.uf ++ g.mes ++ g.ano ++ ['.'] ++ g.cod1 ++ ['.'] ++ g.cod2 ++ [d1, d2]
        ++ (g.tail ++ ['C', 'A', 'F']))⟩, ?_, ?_⟩
    · simp only [parse_caf, if_neg hne, hnorm]
      rw [show (String.mk (g.uf ++ g.mes ++ g.ano ++ ['.'] ++ g.cod1 ++ ['.'] ++ g.cod2
          ++ [d1, d2] ++ (g.tail ++ ['C', 'A', 'F']))).toList
          = (g.uf ++ g.mes ++ g.ano ++ ['.'] ++ g.cod1 ++ ['.'] ++ g.cod2 ++ [d1, d2]
            ++ (g.tail ++ ['C', 'A', 'F'])) from rfl]
      simp only [hmatch]
    · simp [isTwoDigits, hd1, hd2]

/-- C8: for a `ParsedCode` produced by a successful parse and an
identifier list produced by `ler_identificadores_unicos_ordenados`,
every string returned by `gerar_combos` contains no whitespace, parses
successfully against the grammar, and its `IDENT` slot holds exactly
two digits. -/
theorem claim_C8_combo_wellformed (s mes ano : String) (p : ParsedCode) (sheet : Sheet)
    (ids : List String) (hp : parse_caf s = some p)
    (hids : ler_identificadores_unicos_ordenados (some sheet) mes ano = .ok ids) :
    ∀ combo ∈ gerar_combos p ids,
      (∀ c ∈ combo.toList, isSpaceCh c = false) ∧
      ∃ q, parse_caf combo = some q ∧ isTwoDigits q.IDENT = true := by
  obtain ⟨g, hm, hpdef, -⟩ := parse_caf_eq_some hp
  subst hpdef
  intro combo hcombo
  simp only [gerar_combos] at hcombo
  by_cases htd : isTwoDigits (String.mk g.ident) = true
  · rw [if_pos htd] at hcombo
    by_cases hmem : String.mk g.ident ∈ ids
    · rw [if_pos hmem] at hcombo
      simp only [List.mem_singleton] at hcombo
      subst hcombo
      have htd' := htd
      simp only [isTwoDigits, Bool.and_eq_true, decide_eq_true_eq, List.all_eq_true] at htd'
      exact combo_wellformed_core hm (String.mk g.ident) htd'.1 htd'.2
    · rw [if_neg hmem] at hcombo
      simp at hcombo
  · rw [if_neg htd] at hcombo
    simp only [List.mem_map] at hcombo
    obtain ⟨cod, hcod, hceq⟩ := hcombo
    subst hceq
    obtain ⟨m, hm99, hcodeq⟩ := ler_ok_mem_shape hids cod hcod
    subst hcodeq
    obtain ⟨hl2, hdig⟩ := format02d_digits m hm99
    exact combo_wellformed_core hm (format02d (m : Int)) hl2 hdig

/-- Witness for C8 at a concrete combo from the worked example. -/
theorem claim_C8_combo_wellformed_witness :
    parse_caf "BA032025.01.00**39367CAF"
      = some ⟨"BA", "03", "2025", "01", "00", "**", "39367", "BA032025.01.00**39367CAF"⟩ ∧
    ler_identificadores_unicos_ordenados (some exampleSheet) "03" "2025"
      = .ok ["05", "07", "12"] ∧
    "BA032025.01.000539367CAF"
      ∈ gerar_combos ⟨"BA", "03", "2025", "01", "00", "**", "39367", "BA032025.01.00**39367CAF"⟩
        ["05", "07", "12"] ∧
    ((∀ c ∈ ("BA032025.01.000539367CAF" : String).toList, isSpaceCh c = false) ∧
      ∃ q, parse_caf "BA032025.01.000539367CAF" = some q ∧ isTwoDigits q.IDENT = true) :=
  ⟨by decide, rfl, by decide,
    claim_C8_combo_wellformed "BA032025.01.00**39367CAF" "03" "2025"
      ⟨"BA", "03", "2025", "01", "00", "**", "39367", "BA032025.01.00**39367CAF"⟩
      exampleSheet ["05", "07", "12"] (by decide) rfl
      "BA032025.01.000539367CAF" (by decide)⟩

/-! ## C5 and C10: the request handler -/

theorem do_POST_parse_some_status (planilha : String) (dataset : Option Sheet) {caf : CafField}
    {p : ParsedCode} (hparse : parse_caf (pyStripStr (cafFieldStr caf)) = some p) :
    (do_POST planilha dataset caf).status = 500 ∨ (do_POST planilha dataset caf).status = 404 ∨
    (do_POST planilha dataset caf).status = 200 := by
  simp only [do_POST, hparse]
  cases hler : ler_identificadores_unicos_ordenados dataset p.MES p.ANO with
  | error e => cases e <;> simp
  | ok ids =>
    by_cases hids : ids = []
    · simp [hids]
    · simp only [if_neg hids]
      by_cases hcombos : gerar_combos p ids = [] <;> simp [hcombos]

/-- C5: the handler (once the JSON body is decoded) responds 400
exactly when `parse_caf` returns `None` on the submitted code; 404
with the "Nenhum identificador" message when parsing succeeds but the
identifier list is empty; 404 with the "IDENT já numérico" message when
the combo expansion is empty; 200 with the combos on success; and 500
with a message containing the configured dataset path when the dataset
file is missing. -/
theorem claim_C5_handler_responses (planilha : String) (dataset : Option Sheet) (caf : CafField) :
    ((do_POST planilha dataset caf).status = 400 ↔
      parse_caf (pyStripStr (cafFieldStr caf)) = none) ∧
    (∀ p sheet, parse_caf (pyStripStr (cafFieldStr caf)) = some p → dataset = some sheet →
      ler_identificadores_unicos_ordenados (some sheet) p.MES p.ANO = .ok [] →
      do_POST planilha dataset caf
        = ⟨404, .erro ("Nenhum identificador encontrado para " ++ p.MES ++ "/" ++ p.ANO ++ ".")⟩) ∧
    (∀ p sheet ids, parse_caf (pyStripStr (cafFieldStr caf)) = some p → dataset = some sheet →
      ler_identificadores_unicos_ordenados (some sheet) p.MES p.ANO = .ok ids → ids ≠ [] →
      gerar_combos p ids = [] →
      do_POST planilha dataset caf
        = ⟨404, .erro "IDENT já numérico e não presente no gabarito para este mês/ano."⟩) ∧
    (∀ p sheet ids, parse_caf (pyStripStr (cafFieldStr caf)) = some p → dataset = some sheet →
      ler_identificadores_unicos_ordenados (some sheet) p.MES p.ANO = .ok ids → ids ≠ [] →
      gerar_combos p ids ≠ [] →
      do_POST planilha dataset caf = ⟨200, .combos (gerar_combos p ids)⟩) ∧
    (∀ p, parse_caf (pyStripStr (cafFieldStr caf)) = some p → dataset = none →
      (do_POST planilha dataset caf).status = 500 ∧
      ∃ pre post, (do_POST planilha dataset caf).body = .erro (pre ++ planilha ++ post)) := by
  refine ⟨?_, ?_, ?_, ?_, ?_⟩
  · constructor
    · intro hst
      cases hparse : parse_caf (pyStripStr (cafFieldStr caf)) with
      | none => rfl
      | some p =>
        rcases do_POST_parse_some_status planilha dataset hparse
          with h5 | h4 | h2 <;> omega
    · intro hnone
      simp only [do_POST, hnone]
  · intro p sheet hparse hds hler
    subst hds
    simp only [do_POST, hparse, hler]
    simp
  · intro p sheet ids hparse hds hler hids hcombos
    subst hds
    simp only [do_POST, hparse, hler, if_neg hids, hcombos]
    simp
  · intro p sheet ids hparse hds hler hids hcombos
    subst hds
    simp only [do_POST, hparse, hler, if_neg hids, if_neg hcombos]
  · intro p hparse hds
    subst hds
    simp only [do_POST, hparse, ler_identificadores_unicos_ordenados]
    exact ⟨trivial, "Planilha não encontrada: ", "", by rw [String.append_empty]⟩

/-- Witness for C5: the success path on the worked example, and the
missing-dataset path. -/
theorem claim_C5_handler_responses_witness :
    do_POST "/dados/GABARITO.xlsx" (some exampleSheet) (.strVal "BA032025.01.00**39367CAF")
      = ⟨200, .combos (gerar_combos
        ⟨"BA", "03", "2025", "01", "00", "**", "39367", "BA032025.01.00**39367CAF"⟩
        ["05", "07", "12"])⟩ ∧
    ((do_POST "/dados/GABARITO.xlsx" Option.none
        (.strVal "BA032025.01.00**39367CAF")).status = 500 ∧
      ∃ pre post, (do_POST "/dados/GABARITO.xlsx" Option.none
        (.strVal "BA032025.01.00**39367CAF")).body
          = .erro (pre ++ "/dados/GABARITO.xlsx" ++ post)) :=
  ⟨(claim_C5_handler_responses "/dados/GABARITO.xlsx" (some exampleSheet)
      (.strVal "BA032025.01.00**39367CAF")).2.2.2.1
      ⟨"BA", "03", "2025", "01", "00", "**", "39367", "BA032025.01.00**39367CAF"⟩
      exampleSheet ["05", "07", "12"] (by decide) rfl rfl (by decide) (by decide),
    (claim_C5_handler_responses "/dados/GABARITO.xlsx" Option.none
      (.strVal "BA032025.01.00**39367CAF")).2.2.2.2
      ⟨"BA", "03", "2025", "01", "00", "**", "39367", "BA032025.01.00**39367CAF"⟩
      (by decide) rfl⟩

/-- C10: a POST whose decoded body has no `caf` key (including the
empty-object body), a null `caf`, or an empty-string `caf` is answered
with the 400 "Formato inválido" response — the missing field collapses
to the empty code — and not with a 500. -/
theorem claim_C10_missing_caf (planilha : String) (dataset : Option Sheet) (caf : CafField)
    (h : caf = .absent ∨ caf = .null ∨ caf = .strVal "") :
    do_POST planilha dataset caf
      = ⟨400, .erro "Formato inválido. Ex.: BA032025.01.00**39367CAF"⟩ := by
  rcases h with rfl | rfl | rfl <;> rfl

/-- Witness for C10 with an absent field and a null field. -/
theorem claim_C10_missing_caf_witness :
    do_POST "/dados/GABARITO.xlsx" (some exampleSheet) .absent
      = ⟨400, .erro "Formato inválido. Ex.: BA032025.01.00**39367CAF"⟩ ∧
    do_POST "/dados/GABARITO.xlsx" Option.none .null
      = ⟨400, .erro "Formato inválido. Ex.: BA032025.01.00**39367CAF"⟩ :=
  ⟨claim_C10_missing_caf "/dados/GABARITO.xlsx" (some exampleSheet) .absent (Or.inl rfl),
    claim_C10_missing_caf "/dados/GABARITO.xlsx" Option.none .null (Or.inr (Or.inl rfl))⟩
